import Mathlib

/-!
Verification development for the `get-nwbfile-info` repository.

The authoritative source is `src/get_nwbfile_info/core.py` (the final variant of the
tool).  This file gives a shallow embedding of its pure core: the value classifiers
(`get_type_name`, `is_small_value`, `format_value`), the traversal-and-codegen engine
(`process_nwb_container`, `process_dict_like`), the variable-name sanitizer
(`get_variable_name_for_string`), and the script assembly (`get_nwbfile_usage_script`,
modelled as a line-list producer, including the DANDI branch).

Modelling conventions:
* Python values reachable by the traversal are the inductive `NwbValue`.  External
  renderings that CPython/numpy/hdmf produce for opaque objects are carried as string
  fields of the constructors ("render" fields); no claim depends on their content.
* Python string operations used by the source (`startswith`, `endswith`, slicing,
  `split`, `join`, single-character `replace`) are modelled by character-list
  functions (`strStartsWith`, …) so that all definitions reduce in the kernel.
* File and network I/O are outside the embedding: the root container read from the
  file is a parameter, and the DANDI archive lookup plus the recursive script
  generation for the resolved URL is a `resolve` function parameter.
-/

/-- Model of Python `s.startswith(pre)`. -/
def strStartsWith (s pre : String) : Bool := List.isPrefixOf pre.data s.data

/-- Model of Python `s.endswith(suf)`. -/
def strEndsWith (s suf : String) : Bool := List.isSuffixOf suf.data s.data

/-- Model of Python slicing `s[:n]` (by characters, as Python indexes strings). -/
def strTake (s : String) (n : Nat) : String := String.mk (s.data.take n)

/-- Model of Python slicing `s[n:]`. -/
def strDrop (s : String) (n : Nat) : String := String.mk (s.data.drop n)

/-- Model of Python `sep.join(xs)`. -/
def strIntercalate (sep : String) (xs : List String) : String :=
  String.mk (List.intercalate sep.data (xs.map String.data))

/-- Helper for `strSplitOnChar`: accumulate the current piece (reversed). -/
def splitOnCharAux (c : Char) : List Char → List Char → List (List Char)
  | [], acc => [acc.reverse]
  | x :: xs, acc =>
      if x = c then acc.reverse :: splitOnCharAux c xs []
      else splitOnCharAux c xs (x :: acc)

/-- Model of Python `s.split(c)` for a single-character separator.
`"".split(":")` is `[""]` in Python, and this model agrees. -/
def strSplitOnChar (s : String) (c : Char) : List String :=
  (splitOnCharAux c s.data []).map String.mk

/-- Model of Python `s.replace("\n", " ")` (single-character pattern, so a map). -/
def replaceNewlinesSpace (s : String) : String :=
  String.mk (s.data.map (fun c => if c = Char.ofNat 10 then Char.ofNat 32 else c))

/-- Model of Python `s.replace("\n", "\\n")` used by `format_value`. -/
def escapeNewlines (s : String) : String :=
  String.mk (s.data.flatMap (fun c =>
    if c = Char.ofNat 10 then [Char.ofNat 92, Char.ofNat 110] else [c]))

/-- Decimal digit characters of `n`, most significant first; the first argument is
recursion fuel (any fuel above `n` is enough). -/
def decCharsAux : Nat → Nat → List Char
  | 0, _ => []
  | fuel + 1, n =>
      if n < 10 then [Nat.digitChar n]
      else decCharsAux fuel (n / 10) ++ [Nat.digitChar (n % 10)]

/-- Model of Python `str(n)` for a nonnegative integer (decimal rendering). -/
def natDecimal (n : Nat) : String := String.mk (decCharsAux (n + 1) n)

/-- Model of Python `str(n)` for an integer. -/
def intDecimal (n : Int) : String :=
  if n < 0 then "-" ++ natDecimal n.natAbs else natDecimal n.toNat

/-- The single-quote character, written via its code point. -/
def squote : Char := Char.ofNat 39

/-- One-character string holding a single quote. -/
def squoteStr : String := String.mk [squote]

/-- Model of CPython `repr` on a `str` in the common case: wrap in single quotes and
escape backslashes, quotes and newlines.  (CPython switches to double quotes when the
string contains a single quote but no double quote; that nuance is elided, and no
claim depends on it.) -/
def pyReprStr (s : String) : String :=
  squoteStr ++
    String.mk (s.data.flatMap (fun c =>
      if c = Char.ofNat 92 then [Char.ofNat 92, Char.ofNat 92]
      else if c = squote then [Char.ofNat 92, squote]
      else if c = Char.ofNat 10 then [Char.ofNat 92, Char.ofNat 110]
      else [c])) ++ squoteStr

/-- Model of the Python rendering of a shape tuple, `f"{value.shape}"`:
`()`, `(5,)`, `(2, 3)`. -/
def pyShapeRepr : List Nat → String
  | [] => "()"
  | [n] => "(" ++ natDecimal n ++ ",)"
  | shape => "(" ++ strIntercalate ", " (shape.map natDecimal) ++ ")"

/-- Model of numpy's default rendering of a 1-D array slice, `f"{sample}"`, over
pre-rendered element strings: bracketed and space-separated. -/
def npRender (elems : List String) : String :=
  "[" ++ strIntercalate " " elems ++ "]"

/-- An `h5py.Dataset` field as the traversal sees it: its shape, its dtype name, the
pre-rendered element strings of a rank-1 read (`elems1d`) and of the first row of a
rank-2 read (`row0`), and whether reading raises an exception (`readFails`, modelling
the `try`/`except` around the preview block in `core.py` lines 192-204). -/
structure H5DatasetData where
  shape : List Nat
  dtype : String
  elems1d : List String
  row0 : List String
  readFails : Bool

/-- One column of a `DynamicTable` as used by `core.py` lines 239-246: its name, the
type name and description of `obj[colname]`, and the type names of the elements of
`obj[colname + "_index"]` (so `index.length` models `len(obj[colname + "_index"])`). -/
structure TableCol where
  name : String
  typeName : String
  description : String
  index : List String

/-- The `DynamicTable` facet of a container: `len(obj)` rows, `len(obj.columns)`
columns, and the column data, in `obj.colnames` order. -/
structure TableData where
  numRows : Nat
  numColumns : Nat
  columns : List TableCol

/-- A Python value reachable by the traversal in `core.py`.  `container` models an
`hdmf` `AbstractContainer` (with `table = some _` when the object is additionally a
`DynamicTable`); `labelledDict` models `hdmf.utils.LabelledDict`; `dataset` models
`h5py.Dataset`; `iterable` models a non-dict, non-string iterable with the given
class name; `other` is any remaining opaque object.  Dict keys are modelled as
strings (the source itself calls `get_variable_name_for_string(key, …)`, which
iterates the key, so only string keys are processable).  `render` fields carry the
external `str()` renderings of numpy/opaque objects. -/
inductive NwbValue where
  | vnone
  | vstr (s : String)
  | vint (n : Int)
  | vfloat (render : String)
  | vbool (b : Bool)
  | vdatetime (iso : String)
  | vlist (xs : List NwbValue)
  | vtuple (xs : List NwbValue)
  | ndarray (shape : List Nat) (dtype : String) (render : String) (items : List NwbValue)
  | dataset (d : H5DatasetData)
  | container (typeName : String) (fields : List (String × NwbValue)) (table : Option TableData)
  | labelledDict (entries : List (String × NwbValue))
  | dict (entries : List (String × NwbValue))
  | iterable (typeName : String) (xs : List NwbValue)
  | other (typeName : String) (render : String)

/-- Model of `isinstance(obj, hdmf.container.AbstractContainer)`. -/
def isAbstractContainer : NwbValue → Bool
  | .container _ _ _ => true
  | _ => false

/-- Model of `isinstance(obj, hdmf.utils.LabelledDict)`. -/
def isLabelledDict : NwbValue → Bool
  | .labelledDict _ => true
  | _ => false

/-- `get_type_name(obj)` from `core.py` lines 17-25: `"None"` for `None`, else the
class name (`obj.__class__.__name__`). -/
def get_type_name : NwbValue → String
  | .vnone => "None"
  | .vstr _ => "str"
  | .vint _ => "int"
  | .vfloat _ => "float"
  | .vbool _ => "bool"
  | .vdatetime _ => "datetime"
  | .vlist _ => "list"
  | .vtuple _ => "tuple"
  | .ndarray _ _ _ _ => "ndarray"
  | .dataset _ => "Dataset"
  | .container typeName _ _ => typeName
  | .labelledDict _ => "LabelledDict"
  | .dict _ => "dict"
  | .iterable typeName _ => typeName
  | .other typeName _ => typeName

mutual

/-- `is_small_value(value)` from `core.py` lines 27-48. -/
def is_small_value : NwbValue → Bool
  | .vnone => true
  | .vstr _ => true
  | .vint _ => true
  | .vfloat _ => true
  | .vbool _ => true
  | .vdatetime _ => true
  | .vlist xs => decide (xs.length < 10) && is_small_all xs
  | .vtuple xs => decide (xs.length < 10) && is_small_all xs
  | .ndarray shape _ _ _ => decide (shape.prod < 10)
  | _ => false

/-- `all(is_small_value(item) for item in value)`. -/
def is_small_all : List NwbValue → Bool
  | [] => true
  | x :: xs => is_small_value x && is_small_all xs

end

mutual

/-- Model of CPython `str(value)` on the value domain.  Exact for `None`, strings,
integers and booleans; for numpy arrays and opaque objects it returns the carried
external rendering; for the remaining container-like objects, whose CPython
rendering is produced by external library code, it returns an abstract
`"<TypeName>"` stand-in (no claim depends on those branches). -/
def pyStr : NwbValue → String
  | .vnone => "None"
  | .vstr s => s
  | .vint n => intDecimal n
  | .vfloat render => render
  | .vbool b => if b then "True" else "False"
  | .vdatetime iso => iso
  | .vlist xs => "[" ++ strIntercalate ", " (pyReprList xs) ++ "]"
  | .vtuple xs =>
      if xs.length = 1 then "(" ++ strIntercalate ", " (pyReprList xs) ++ ",)"
      else "(" ++ strIntercalate ", " (pyReprList xs) ++ ")"
  | .ndarray _ _ render _ => render
  | .dataset _ => "<Dataset>"
  | .container typeName _ _ => "<" ++ typeName ++ ">"
  | .labelledDict _ => "<LabelledDict>"
  | .dict _ => "<dict>"
  | .iterable typeName _ => "<" ++ typeName ++ ">"
  | .other _ render => render

/-- Model of CPython `repr(value)`: quoted for strings, `pyStr` otherwise. -/
def pyRepr : NwbValue → String
  | .vstr s => pyReprStr s
  | v => pyStr v

/-- `repr` applied elementwise. -/
def pyReprList : List NwbValue → List String
  | [] => []
  | x :: xs => pyRepr x :: pyReprList xs

end

/-- Checks `all(isinstance(item, str) for item in value)`. -/
def allStr : List NwbValue → Bool
  | [] => true
  | .vstr _ :: xs => allStr xs
  | _ => false

/-- `format_value(value)` from `core.py` lines 50-79. -/
def format_value : NwbValue → String
  | .vnone => "None"
  | .vstr s =>
      let formatted := escapeNewlines s
      if 100 < formatted.length then strTake formatted 97 ++ "..." else formatted
  | .vdatetime iso => iso
  | .vlist xs =>
      if xs.length = 0 then "[]"
      else if allStr xs then "[" ++ strIntercalate ", " (pyReprList xs) ++ "]"
      else pyStr (.vlist xs)
  | .vtuple xs =>
      if xs.length = 0 then "[]"
      else if allStr xs then "[" ++ strIntercalate ", " (pyReprList xs) ++ "]"
      else pyStr (.vtuple xs)
  | .ndarray shape dtype render items =>
      if shape.prod = 0 then "Empty array with shape " ++ pyShapeRepr shape
      else if shape.prod < 10 then pyStr (.ndarray shape dtype render items)
      else "Array with shape " ++ pyShapeRepr shape ++ "; dtype " ++ dtype
  | v => pyStr v

/-- `MAX_NUM_FIELDS_TO_SHOW` from `core.py` line 15. -/
def MAX_NUM_FIELDS_TO_SHOW : Nat := 15

/-- The collision loop of `get_variable_name_for_string` (`core.py` lines 441-445):
starting at `counter = k`, return the first `base_counter` not in `scope`.  The
first argument is recursion fuel; `scope.length + 1` tries always suffice. -/
def uniquifyAux (base : String) (scope : List String) : Nat → Nat → String
  | 0, k => base ++ "_" ++ natDecimal k
  | fuel + 1, k =>
      if (base ++ "_" ++ natDecimal k) ∈ scope then uniquifyAux base scope fuel (k + 1)
      else base ++ "_" ++ natDecimal k

/-- `get_variable_name_for_string(name, variable_names_in_scope)` from `core.py`
lines 421-445.  Characters are classified by `Char.isAlphanum`, the ASCII reading of
Python `str.isalnum` (all inputs of interest are ASCII). -/
def get_variable_name_for_string (name : String) (variable_names_in_scope : List String) : String :=
  if name = "" then ""
  else
    let sanitized0 := String.mk (name.data.map (fun c =>
      if c.isAlphanum || c = Char.ofNat 95 then c else Char.ofNat 95))
    let sanitized1 := String.mk (sanitized0.data.map (fun c =>
      if c = Char.ofNat 32 then Char.ofNat 95 else c))
    let sanitized_name :=
      match sanitized1.data with
      | c :: _ => if c.isDigit then "_" ++ sanitized1 else sanitized1
      | [] => sanitized1
    if sanitized_name ∉ variable_names_in_scope then sanitized_name
    else uniquifyAux sanitized_name variable_names_in_scope
      (variable_names_in_scope.length + 1) 1

/-- The commented example-access lines for a dataset field, by rank
(`core.py` lines 180-189). -/
def datasetAccessLines (field_expr : String) (shape : List Nat) : List String :=
  if shape.length = 1 then
    ["# " ++ field_expr ++ "[:] # Access all data",
     "# " ++ field_expr ++ "[0:n] # Access first n elements"]
  else if shape.length = 2 then
    ["# " ++ field_expr ++ "[:, :] # Access all data",
     "# " ++ field_expr ++ "[0:n, :] # Access first n rows",
     "# " ++ field_expr ++ "[:, 0:n] # Access first n columns"]
  else if 3 ≤ shape.length then
    ["# " ++ field_expr ++ "[:, :, :] # Access all data",
     "# " ++ field_expr ++ "[0, :, :] # Access first plane"]
  else []

/-- The sample-preview lines for a dataset field (`core.py` lines 191-204): inside a
`try` (a read failure emits a warning and skips the block), when `size < 50`, a
rank-1 nonempty dataset previews its first `min(10, len)` elements and a rank-2
nonempty dataset previews the first `min(10, cols)` elements of row 0; the line is
passed through `.replace("\n", " ")`. -/
def datasetPreviewLines (field_expr : String) (d : H5DatasetData) : List String :=
  if d.readFails then []
  else if d.shape.prod < 50 then
    match d.shape with
    | [n] =>
        if 0 < n then
          [replaceNewlinesSpace ("# First few values of " ++ field_expr ++ ": " ++
            npRender (d.elems1d.take (min 10 n)))]
        else []
    | [r, c] =>
        if 0 < r then
          if 0 < c then
            [replaceNewlinesSpace ("# First row sample of " ++ field_expr ++ ": " ++
              npRender (d.row0.take (min 10 c)))]
          else []
        else []
    | _ => []
  else []

/-- The lines emitted for one non-container field before any `LabelledDict`
handling (`core.py` lines 172-211): dataset fields get a shape/dtype line, the
example-access lines and the preview; small values get an inline formatted line;
everything else a type-only line. -/
def nonContainerFieldLines (field_expr : String) (v : NwbValue) : List String :=
  match v with
  | .dataset d =>
      (field_expr ++ " # (" ++ get_type_name (.dataset d) ++ ") shape " ++
        pyShapeRepr d.shape ++ "; dtype " ++ d.dtype)
        :: (datasetAccessLines field_expr d.shape ++ datasetPreviewLines field_expr d)
  | v =>
      if is_small_value v then
        [field_expr ++ " # (" ++ get_type_name v ++ ") " ++ format_value v]
      else
        [field_expr ++ " # (" ++ get_type_name v ++ ")"]

/-- The example indexed-access lines for a `VectorIndex` column
(`core.py` lines 242-244): `for j in range(len(index)): if j <= 3: append(...)`. -/
def vectorIndexExampleLines (expression colname : String) (index : List String) : List String :=
  (List.range index.length).filterMap (fun j =>
    if j ≤ 3 then
      some ("# " ++ expression ++ "." ++ colname ++ "_index[" ++ natDecimal j ++ "] # (" ++
        index.getD j "" ++ ")")
    else none)

/-- The lines emitted for one `DynamicTable` column (`core.py` lines 239-246). -/
def tableColLines (expression : String) (col : TableCol) : List String :=
  (expression ++ "." ++ col.name ++ " # (" ++ col.typeName ++ ") " ++ col.description)
    :: (if col.typeName = "VectorIndex" then
          vectorIndexExampleLines expression col.name col.index ++
            (if 3 < col.index.length then ["# ..."] else [])
        else [])

/-- The `DynamicTable` special handling (`core.py` lines 234-246), emitted after the
field passes when the container is a `DynamicTable`. -/
def dynamicTableLines : Option TableData → String → List String
  | none, _ => []
  | some t, expression =>
      ("# " ++ expression ++ ".to_dataframe() # (DataFrame) Convert to a pandas DataFrame with " ++
        natDecimal t.numRows ++ " rows and " ++ natDecimal t.numColumns ++ " columns")
        :: ("# " ++ expression ++ ".to_dataframe().head() # (DataFrame) Show the first few rows of the pandas DataFrame")
        :: t.columns.flatMap (tableColLines expression)

mutual

/-- `process_nwb_container(obj, expression=…, variable_names_in_scope=…)` from
`core.py` lines 143-266.  The source filters the private field names upfront and
partitions the remainder into non-container and container fields before running the
two passes; here each pass walks `fields` directly and skips the entries belonging
to the other group, which yields the same line sequence.  Dispatch follows the
source's `isinstance` chain: `AbstractContainer` first; then dict-like objects
(which includes `LabelledDict` reached directly); then iterables other than
strings, dicts and datasets (which in Python includes lists, tuples and numpy
arrays); remaining values produce no lines. -/
def process_nwb_container (obj : NwbValue) (expression : String)
    (variable_names_in_scope : List String) : List String :=
  match obj with
  | .container typeName fields table =>
      (expression ++ " # (" ++ typeName ++ ")")
        :: (pncNonContainerPass fields expression variable_names_in_scope ++
            (pncContainerPass fields expression variable_names_in_scope ++
             dynamicTableLines table expression))
  | .labelledDict entries => pdlLoop entries expression variable_names_in_scope 0 []
  | .dict entries => pdlLoop entries expression variable_names_in_scope 0 []
  | .vlist xs => pncIterLoop xs 0 expression variable_names_in_scope
  | .vtuple xs => pncIterLoop xs 0 expression variable_names_in_scope
  | .ndarray _ _ _ items => pncIterLoop items 0 expression variable_names_in_scope
  | .iterable _ xs => pncIterLoop xs 0 expression variable_names_in_scope
  | _ => []

/-- The lines for one shown non-container field: `nonContainerFieldLines` plus the
`LabelledDict` special handling of `core.py` lines 213-223. -/
def ncfEntryLines (expression : String) (variable_names_in_scope : List String)
    (field_name : String) (field_value : NwbValue) : List String :=
  nonContainerFieldLines (expression ++ "." ++ field_name) field_value ++
    (match field_value with
     | .labelledDict entries =>
         let variable_name := get_variable_name_for_string field_name variable_names_in_scope
         if variable_name ≠ "" then
           (variable_name ++ " = " ++ (expression ++ "." ++ field_name))
             :: pdlLoop entries variable_name (variable_names_in_scope ++ [variable_name]) 0 []
         else
           pdlLoop entries (expression ++ "." ++ field_name) variable_names_in_scope 0 []
     | _ => [])

/-- The non-container pass of `process_nwb_container` (`core.py` lines 168-223):
private names and container-valued fields are skipped. -/
def pncNonContainerPass : List (String × NwbValue) → String → List String → List String
  | [], _, _ => []
  | (field_name, field_value) :: rest, expression, variable_names_in_scope =>
      if strStartsWith field_name "_" then
        pncNonContainerPass rest expression variable_names_in_scope
      else if isAbstractContainer field_value then
        pncNonContainerPass rest expression variable_names_in_scope
      else
        ncfEntryLines expression variable_names_in_scope field_name field_value ++
          pncNonContainerPass rest expression variable_names_in_scope

/-- The container pass of `process_nwb_container` (`core.py` lines 226-231). -/
def pncContainerPass : List (String × NwbValue) → String → List String → List String
  | [], _, _ => []
  | (field_name, field_value) :: rest, expression, variable_names_in_scope =>
      if strStartsWith field_name "_" then
        pncContainerPass rest expression variable_names_in_scope
      else if isAbstractContainer field_value then
        process_nwb_container field_value (expression ++ "." ++ field_name)
            variable_names_in_scope ++
          pncContainerPass rest expression variable_names_in_scope
      else
        pncContainerPass rest expression variable_names_in_scope

/-- The iterable branch of `process_nwb_container` (`core.py` lines 254-264):
enumerate the items, recursing with an indexed path; from `i = 10` on, emit the
truncation marker and stop. -/
def pncIterLoop : List NwbValue → Nat → String → List String → List String
  | [], _, _, _ => []
  | item :: rest, i, expression, variable_names_in_scope =>
      if 10 ≤ i then ["# ... more items in " ++ expression]
      else
        process_nwb_container item (expression ++ "[" ++ natDecimal i ++ "]")
            variable_names_in_scope ++
          pncIterLoop rest (i + 1) expression variable_names_in_scope

/-- The item loop of `process_dict_like` (`core.py` lines 90-141), with the
post-loop trailer emitted at the end of the list.  Private keys are skipped; once
`MAX_NUM_FIELDS_TO_SHOW` items have been shown, the remaining keys are collected
into `unshown`.  The source appends the `"# ..."` / `"# Other fields: …"` pair
twice (the block at lines 131-135 is repeated verbatim at lines 137-139), and the
base case reproduces that duplication faithfully. -/
def pdlLoop : List (String × NwbValue) → String → List String → Nat → List String → List String
  | [], _, _, _, unshown =>
      if unshown = [] then []
      else
        ["# ...", "# Other fields: " ++ strIntercalate ", " unshown,
         "# ...", "# Other fields: " ++ strIntercalate ", " unshown]
  | (key, value) :: rest, expression, variable_names_in_scope, num_shown, unshown =>
      if strStartsWith key "_" then
        pdlLoop rest expression variable_names_in_scope num_shown unshown
      else if MAX_NUM_FIELDS_TO_SHOW ≤ num_shown then
        pdlLoop rest expression variable_names_in_scope num_shown (unshown ++ [key])
      else
        let item_expr := expression ++ "[\"" ++ key ++ "\"]"
        let type_name := if isAbstractContainer value then "" else get_type_name value
        let item_variable := get_variable_name_for_string key variable_names_in_scope
        if item_variable ≠ "" then
          (if type_name ≠ "" then item_variable ++ " = " ++ item_expr ++ " # (" ++ type_name ++ ")"
           else item_variable ++ " = " ++ item_expr)
            :: (process_nwb_container value item_variable
                  (variable_names_in_scope ++ [item_variable]) ++
                pdlLoop rest expression variable_names_in_scope (num_shown + 1) unshown)
        else
          (item_expr ++ " # (" ++ type_name ++ ")")
            :: (process_nwb_container value item_expr variable_names_in_scope ++
                pdlLoop rest expression variable_names_in_scope (num_shown + 1) unshown)

end

/-- `process_dict_like(obj, expression=…, variable_names_in_scope=…)` from
`core.py` lines 81-141. -/
def process_dict_like (obj : List (String × NwbValue)) (expression : String)
    (variable_names_in_scope : List String) : List String :=
  pdlLoop obj expression variable_names_in_scope 0 []

/-- The header block of `get_nwbfile_usage_script` (`core.py` lines 337-388),
including the trailing blank line. -/
def headerLines (url_or_path : String) : List String :=
  let is_url := strStartsWith url_or_path "http://" || strStartsWith url_or_path "https://"
  let is_lindi := strEndsWith url_or_path ".lindi.json" || strEndsWith url_or_path ".lindi.tar"
  let base :=
    ["# This script shows how to load the NWB file at " ++ url_or_path ++ " in Python using PyNWB",
     "", "import pynwb", "import h5py"]
  let loadBlock :=
    if is_url && !is_lindi then
      ["import remfile", "", "# Load",
       "url = \"" ++ url_or_path ++ "\"",
       "remote_file = remfile.File(url)",
       "h5_file = h5py.File(remote_file)",
       "io = pynwb.NWBHDF5IO(file=h5_file)",
       "nwb = io.read()"]
    else if is_url && is_lindi then
      ["import lindi", "", "# Load",
       "url = \"" ++ url_or_path ++ "\"",
       "f = lindi.LindiH5pyFile.from_lindi_file(url)",
       "io = pynwb.NWBHDF5IO(file=f, mode=" ++ squoteStr ++ "r" ++ squoteStr ++ ")",
       "nwb = io.read()"]
    else if !is_url && is_lindi then
      ["import lindi", "", "# Load",
       "path = \"" ++ url_or_path ++ "\"",
       "f = lindi.LindiH5pyFile.from_lindi_file(path)",
       "io = pynwb.NWBHDF5IO(file=f, mode=" ++ squoteStr ++ "r" ++ squoteStr ++ ")",
       "nwb = io.read()"]
    else
      ["", "# Load",
       "path = \"" ++ url_or_path ++ "\"",
       "nwb = pynwb.read_nwb(path=path)"]
  base ++ loadBlock ++ [""]

/-- The header line prefix tested by the DANDI rewrite (`core.py` line 320). -/
def headerMarker : String := "# This script shows how to load the NWB file at"

/-- The rewrite loop of the DANDI branch (`core.py` lines 317-331): returns the
rewritten lines together with the `found1` flag. -/
def dandiRewriteLoop (dandiset_id dandiset_version dandiset_file_path : String) :
    List String → List String × Bool
  | [] => ([], false)
  | line :: rest =>
      let r := dandiRewriteLoop dandiset_id dandiset_version dandiset_file_path rest
      if strStartsWith line headerMarker then
        ((headerMarker ++ " " ++ dandiset_file_path ++ " in Dandiset " ++ dandiset_id ++
            " version " ++ dandiset_version ++ " in Python using PyNWB") :: r.1, true)
      else if strStartsWith line "url = " then
        (("from dandi.dandiapi import DandiAPIClient\nclient = DandiAPIClient()\ndandiset = client.get_dandiset(\"" ++
            dandiset_id ++ "\", \"" ++ dandiset_version ++ "\")\nurl = next(dandiset.get_assets_by_glob(\"" ++
            dandiset_file_path ++ "\")).download_url") :: r.1, r.2)
      else (line :: r.1, r.2)

/-- `get_nwbfile_usage_script(url_or_path)` from `core.py` lines 268-418, as a
producer of output lines.  The file I/O is external: `root` is the container read
from the resolved file, and `resolve id version path` stands for the DANDI archive
lookup plus the recursive script generation for the resolved download URL
(`core.py` lines 311-316).  Exceptions are modelled by `Except.error` carrying the
exception message. -/
def get_nwbfile_usage_script (url_or_path : String) (root : NwbValue)
    (resolve : String → String → String → List String) : Except String (List String) :=
  if strStartsWith url_or_path "DANDI:" then
    let parts := strSplitOnChar (strDrop url_or_path "DANDI:".length) (Char.ofNat 58)
    if parts.length < 3 then
      Except.error "Invalid DANDI URL format. Expected format: DANDI:[ID]:[VERSION]:[path]"
    else
      let dandiset_id := parts.getD 0 ""
      let dandiset_version := parts.getD 1 ""
      let dandiset_file_path := strIntercalate ":" (parts.drop 2)
      let script_lines := resolve dandiset_id dandiset_version dandiset_file_path
      let r := dandiRewriteLoop dandiset_id dandiset_version dandiset_file_path script_lines
      if r.2 then Except.ok r.1
      else Except.error "Unexpected: could not find a header line in the script"
  else
    Except.ok (headerLines url_or_path ++ process_nwb_container root "nwb" [])

/-! ### Graph view of the traversal, for termination analysis

`process_nwb_container` in `core.py` has no visited-set: nothing guards against a
container field that refers back to an ancestor.  To reason about termination on
such object graphs, `pncG` is the same function with object references made
explicit: nodes live in a `store`, container-valued fields are `ref` indices into
the store, and the recursion carries explicit fuel.  `pncG … fuel … = none` means
the recursion of the source exceeds depth `fuel`; a store on which this holds for
every fuel is a graph on which the Python recursion never terminates. -/

/-- A field of a graph node: a plain (non-container) value, or a reference to
another container node in the store. -/
inductive GField where
  | val (v : NwbValue)
  | ref (n : Nat)

/-- A container node of the entity graph. -/
structure GNode where
  typeName : String
  fields : List (String × GField)
  table : Option TableData

/-- `process_nwb_container` on a container of the entity graph `store`, with
explicit recursion fuel.  The passes are the ones of `core.py` lines 150-246:
summary line, non-container pass (via `ncfEntryLines`, shared with the tree
embedding), container pass (recursing through `ref` fields), `DynamicTable`
lines.  Container-valued fields are always represented as `ref`s; a dangling
reference (not produced by any real object graph) yields no lines. -/
def pncG (store : List GNode) : Nat → Nat → String → List String → Option (List String)
  | 0, _, _, _ => none
  | fuel + 1, i, expression, scope =>
      match store.get? i with
      | none => some []
      | some nd =>
          let ncfLines := nd.fields.flatMap (fun p =>
            if strStartsWith p.1 "_" then []
            else
              match p.2 with
              | .val v => if isAbstractContainer v then [] else ncfEntryLines expression scope p.1 v
              | .ref _ => [])
          let rest := nd.fields.foldl (fun acc p =>
            if strStartsWith p.1 "_" then acc
            else
              match p.2 with
              | .ref j => acc.bind (fun ls =>
                  (pncG store fuel j (expression ++ "." ++ p.1) scope).map (fun ms => ls ++ ms))
              | .val _ => acc) (some [])
          match rest with
          | none => none
          | some cls =>
              some ((expression ++ " # (" ++ nd.typeName ++ ")")
                :: (ncfLines ++ (cls ++ dynamicTableLines nd.table expression)))

/-- The traversal of the entity graph `store` terminates when started at node `i`:
some recursion depth suffices. -/
def GTerminates (store : List GNode) (i : Nat) : Prop :=
  ∃ fuel, pncG store fuel i "nwb" [] ≠ none

/-- A one-node entity graph whose single container has a field `b` referring back
to the container itself. -/
def cyclicStore : List GNode := [⟨"Acquisition", [("b", GField.ref 0)], none⟩]

/-! ### Structural access paths

`visitPaths` mirrors the recursion of `process_nwb_container` /
`process_dict_like`, recording the structural access path of every entity at which
a container summary line is emitted (the `expression # (TypeName)` line at
`core.py` line 153).  Path segments are recorded structurally — field access, dict
key, iteration index — independently of the expression aliasing that
`process_dict_like` introduces through local variables. -/

/-- One segment of a structural access path. -/
inductive Seg where
  | fseg (s : String)
  | kseg (s : String)
  | iseg (n : Nat)
  deriving DecidableEq

mutual

/-- The structural access paths of the container summary lines emitted by
`process_nwb_container obj … `, when the entity at path `p` is `obj`; mirror of
the recursion of `process_nwb_container`. -/
def visitPaths (v : NwbValue) (p : List Seg) : List (List Seg) :=
  match v with
  | .container _ fields _ => p :: (vpNonContainerPass fields p ++ vpContainerPass fields p)
  | .labelledDict entries => vpDictLoop entries p 0
  | .dict entries => vpDictLoop entries p 0
  | .vlist xs => vpIterLoop xs 0 p
  | .vtuple xs => vpIterLoop xs 0 p
  | .ndarray _ _ _ items => vpIterLoop items 0 p
  | .iterable _ xs => vpIterLoop xs 0 p
  | _ => []

/-- Paths reached by the non-container pass through one field value: only
`LabelledDict` fields are recursed into there (`core.py` lines 213-223). -/
def vpFieldValue : NwbValue → List Seg → List (List Seg)
  | .labelledDict entries, p => vpDictLoop entries p 0
  | _, _ => []

/-- Paths reached through the non-container pass. -/
def vpNonContainerPass : List (String × NwbValue) → List Seg → List (List Seg)
  | [], _ => []
  | (n, v) :: rest, p =>
      if strStartsWith n "_" then vpNonContainerPass rest p
      else if isAbstractContainer v then vpNonContainerPass rest p
      else vpFieldValue v (p ++ [Seg.fseg n]) ++ vpNonContainerPass rest p

/-- Paths reached through the container pass (`core.py` lines 226-231). -/
def vpContainerPass : List (String × NwbValue) → List Seg → List (List Seg)
  | [], _ => []
  | (n, v) :: rest, p =>
      if strStartsWith n "_" then vpContainerPass rest p
      else if isAbstractContainer v then
        visitPaths v (p ++ [Seg.fseg n]) ++ vpContainerPass rest p
      else vpContainerPass rest p

/-- Paths reached through the `process_dict_like` loop: private keys are skipped,
and values beyond the first `MAX_NUM_FIELDS_TO_SHOW` shown ones are not recursed
into (`core.py` lines 90-129). -/
def vpDictLoop : List (String × NwbValue) → List Seg → Nat → List (List Seg)
  | [], _, _ => []
  | (k, v) :: rest, p, num =>
      if strStartsWith k "_" then vpDictLoop rest p num
      else if MAX_NUM_FIELDS_TO_SHOW ≤ num then vpDictLoop rest p num
      else visitPaths v (p ++ [Seg.kseg k]) ++ vpDictLoop rest p (num + 1)

/-- Paths reached through the iterable branch: the first 10 items
(`core.py` lines 254-264). -/
def vpIterLoop : List NwbValue → Nat → List Seg → List (List Seg)
  | [], _, _ => []
  | x :: rest, i, p =>
      if 10 ≤ i then []
      else visitPaths x (p ++ [Seg.iseg i]) ++ vpIterLoop rest (i + 1) p

end

/-- No duplicates in a list of strings (executable). -/
def nodupStr : List String → Bool
  | [] => true
  | x :: xs => !(xs.contains x) && nodupStr xs

mutual

/-- Well-formedness of an embedded value: every container's field-name list and
every dict's key list is duplicate-free, recursively.  This holds of every value
arising from a real Python object, where fields and keys live in dicts. -/
def wfv : NwbValue → Bool
  | .container _ fields _ => nodupStr (fields.map Prod.fst) && wfvPairs fields
  | .labelledDict entries => nodupStr (entries.map Prod.fst) && wfvPairs entries
  | .dict entries => nodupStr (entries.map Prod.fst) && wfvPairs entries
  | .vlist xs => wfvList xs
  | .vtuple xs => wfvList xs
  | .ndarray _ _ _ items => wfvList items
  | .iterable _ xs => wfvList xs
  | _ => true

/-- Well-formedness of a field/entry list. -/
def wfvPairs : List (String × NwbValue) → Bool
  | [] => true
  | (_, v) :: rest => wfv v && wfvPairs rest

/-- Well-formedness of an item list. -/
def wfvList : List NwbValue → Bool
  | [] => true
  | x :: xs => wfv x && wfvList xs

end

/-- A line of generated accessor code always contains a `#` (comment marker or
inline type annotation) or an `=` (variable binding); header lines like
`import remfile` contain neither. -/
def MarkedLine (l : String) : Prop := Char.ofNat 35 ∈ l.data ∨ Char.ofNat 61 ∈ l.data

/-! ### Concrete example values used by counterexamples and witnesses -/

/-- A mapping with 20 non-private keys and `None` values. -/
def dict20Ex : List (String × NwbValue) :=
  [("k00", .vnone), ("k01", .vnone), ("k02", .vnone), ("k03", .vnone), ("k04", .vnone),
   ("k05", .vnone), ("k06", .vnone), ("k07", .vnone), ("k08", .vnone), ("k09", .vnone),
   ("k10", .vnone), ("k11", .vnone), ("k12", .vnone), ("k13", .vnone), ("k14", .vnone),
   ("k15", .vnone), ("k16", .vnone), ("k17", .vnone), ("k18", .vnone), ("k19", .vnone)]

/-- An empty rank-1 dataset: shape `(0,)`, hence `size = 0 < 50` and rank 1. -/
def emptyDataset : H5DatasetData := ⟨[0], "float64", [], [], false⟩

/-- A container whose only field is the empty rank-1 dataset. -/
def emptyDatasetContainerEx : NwbValue := .container "NWBFile" [("d", .dataset emptyDataset)] none

/-- A container whose only (non-container) field is a small rank-1 dataset. -/
def datasetContainerEx : NwbValue :=
  .container "NWBFile" [("d", .dataset ⟨[3], "int64", ["10", "20", "30"], [], false⟩)] none

/-- A container in which two distinct access paths (`.b` and `.c`) reach the same
nested container. -/
def sharedSubcontainerEx : NwbValue :=
  .container "NWBFile"
    [("b", .container "TimeSeries" [("rate", .vfloat "1.0")] none),
     ("c", .container "TimeSeries" [("rate", .vfloat "1.0")] none)] none

/-- A `VectorIndex` column whose index has exactly 4 entries. -/
def vcol4Ex : TableCol :=
  ⟨"col", "VectorIndex", "example column", ["VectorData", "VectorData", "VectorData", "VectorData"]⟩

/-- A `DynamicTable` container with the single column `vcol4Ex`. -/
def table4Ex : NwbValue := .container "TimeIntervals" [] (some ⟨2, 1, [vcol4Ex]⟩)

/-- A `VectorIndex` column whose index has 6 entries. -/
def vcol6Ex : TableCol :=
  ⟨"col", "VectorIndex", "example column",
   ["VectorData", "VectorData", "VectorData", "VectorData", "VectorData", "VectorData"]⟩

/-! ## Theorems -/

/-! ### Decimal rendering: correctness and injectivity -/

theorem digitChar_toNat_fin : ∀ d : Fin 10, (Nat.digitChar d.val).toNat = 48 + d.val := by decide

theorem digitChar_toNat {d : Nat} (hd : d < 10) : (Nat.digitChar d).toNat = 48 + d :=
  digitChar_toNat_fin ⟨d, hd⟩

theorem decCharsAux_foldl : ∀ fuel n, n < fuel →
    (decCharsAux fuel n).foldl (fun a c => 10 * a + (c.toNat - 48)) 0 = n := by
  intro fuel
  induction fuel with
  | zero => intro n hn; omega
  | succ fuel ih =>
      intro n hn
      by_cases h10 : n < 10
      · simp [decCharsAux, h10, digitChar_toNat h10]
      · have hne : ¬ n < 10 := h10
        have hdiv : n / 10 < fuel := by
          have h1 : n / 10 < n := Nat.div_lt_self (by omega) (by omega)
          omega
        have hmod : n % 10 < 10 := Nat.mod_lt _ (by omega)
        simp only [decCharsAux, if_neg hne, List.foldl_append, List.foldl_cons, List.foldl_nil,
          ih (n / 10) hdiv, digitChar_toNat hmod]
        have := Nat.div_add_mod n 10
        omega

theorem natDecimal_inj : Function.Injective natDecimal := by
  intro a b h
  have hd : decCharsAux (a + 1) a = decCharsAux (b + 1) b := congrArg String.data h
  have ha := decCharsAux_foldl (a + 1) a (Nat.lt_succ_self a)
  have hb := decCharsAux_foldl (b + 1) b (Nat.lt_succ_self b)
  rw [hd] at ha
  omega

/-! ### The collision loop of the sanitizer -/

theorem candidate_inj (base : String) : Function.Injective (fun k => base ++ "_" ++ natDecimal k) := by
  intro i j h
  have hd := congrArg String.data h
  simp only [String.data_append, List.append_assoc] at hd
  have h2 := List.append_cancel_left hd
  have h3 := List.append_cancel_left h2
  exact natDecimal_inj (congrArg String.mk h3)

theorem nodup_subset_length_le {l₁ l₂ : List String} (h : l₁.Nodup) (hs : l₁ ⊆ l₂) :
    l₁.length ≤ l₂.length := by
  have h1 : l₁.toFinset.card = l₁.length := List.toFinset_card_of_nodup h
  have h2 : l₁.toFinset ⊆ l₂.toFinset := by
    intro a ha
    simp only [List.mem_toFinset] at ha ⊢
    exact hs ha
  have h3 := Finset.card_le_card h2
  have h4 : l₂.toFinset.card ≤ l₂.length := List.toFinset_card_le l₂
  omega

theorem exists_fresh (base : String) (scope : List String) (k : Nat) :
    ∃ j, j < scope.length + 1 ∧ (base ++ "_" ++ natDecimal (k + j)) ∉ scope := by
  by_contra hc
  push_neg at hc
  have hsub : ((List.range (scope.length + 1)).map (fun j => base ++ "_" ++ natDecimal (k + j))) ⊆ scope := by
    intro x hx
    rcases List.mem_map.1 hx with ⟨j, hj, rfl⟩
    exact hc j (List.mem_range.1 hj)
  have hinj : Function.Injective (fun j => base ++ "_" ++ natDecimal (k + j)) := by
    intro a b hab
    have := candidate_inj base hab
    omega
  have hnd := (List.nodup_range (scope.length + 1)).map hinj
  have := nodup_subset_length_le hnd hsub
  simp only [List.length_map, List.length_range] at this
  omega

theorem uniquifyAux_not_mem (base : String) (scope : List String) :
    ∀ fuel k, (∃ j, j < fuel ∧ (base ++ "_" ++ natDecimal (k + j)) ∉ scope) →
      uniquifyAux base scope fuel k ∉ scope := by
  intro fuel
  induction fuel with
  | zero => rintro k ⟨j, hj, _⟩; omega
  | succ fuel ih =>
      rintro k ⟨j, hj, hnot⟩
      rw [uniquifyAux]
      split
      · rename_i hmem
        apply ih (k + 1)
        refine ⟨j - 1, by
          rcases Nat.eq_zero_or_pos j with hj0 | hj0
          · subst hj0; simp at hnot; exact absurd hmem hnot
          · omega, ?_⟩
        have hj0 : j ≠ 0 := by
          rintro rfl
          simp at hnot
          exact absurd hmem hnot
        have : k + 1 + (j - 1) = k + j := by omega
        rw [this]
        exact hnot
      · rename_i hmem
        exact hmem

theorem uniquifyAux_shape (base : String) (scope : List String) :
    ∀ fuel k, ∃ m, uniquifyAux base scope fuel k = base ++ "_" ++ natDecimal m := by
  intro fuel
  induction fuel with
  | zero => intro k; exact ⟨k, rfl⟩
  | succ fuel ih =>
      intro k
      rw [uniquifyAux]
      split
      · exact ih (k + 1)
      · exact ⟨k, rfl⟩

theorem append_mid_ne_empty (a b : String) : a ++ "_" ++ b ≠ "" := by
  intro h
  have hd := congrArg String.data h
  simp only [String.data_append] at hd
  rcases List.append_eq_nil.1 hd with ⟨h1, -⟩
  rcases List.append_eq_nil.1 h1 with ⟨-, h2⟩
  exact absurd h2 (by decide)

theorem string_data_mk (l : List Char) : (String.mk l).data = l := rfl

theorem mk_cons_ne_empty (c : Char) (l : List Char) : String.mk (c :: l) ≠ "" := by
  intro h
  have h2 : c :: l = ([] : List Char) := congrArg String.data h
  exact absurd h2 (by simp)

theorem underscore_append_ne_empty (s : String) : "_" ++ s ≠ "" := by
  intro h
  have h2 : Char.ofNat 95 :: s.data = ([] : List Char) := congrArg String.data h
  exact absurd h2 (by simp)

theorem gvn_core (sanN : String) (scope : List String) (hne : sanN ≠ "") :
    (if sanN ∉ scope then sanN else uniquifyAux sanN scope (scope.length + 1) 1) ∉ scope ∧
    (if sanN ∉ scope then sanN else uniquifyAux sanN scope (scope.length + 1) 1) ≠ "" := by
  split
  · rename_i h
    exact ⟨h, hne⟩
  · constructor
    · apply uniquifyAux_not_mem
      obtain ⟨j, hj, hnot⟩ := exists_fresh sanN scope 1
      exact ⟨j, hj, hnot⟩
    · obtain ⟨m, hm⟩ := uniquifyAux_shape sanN scope (scope.length + 1) 1
      rw [hm]
      exact append_mid_ne_empty _ _

theorem ite_ne_empty (c : Prop) [Decidable c] (a b : String) (ha : a ≠ "") (hb : b ≠ "") :
    (if c then a else b) ≠ "" := by
  by_cases h : c
  · simp only [if_pos h]; exact ha
  · simp only [if_neg h]; exact hb

theorem gvn_spec (name : String) (scope : List String) (hn : name ≠ "") :
    get_variable_name_for_string name scope ∉ scope ∧
    get_variable_name_for_string name scope ≠ "" := by
  obtain ⟨nd⟩ := name
  match nd, hn with
  | [], hn => exact absurd rfl hn
  | c :: cs, hn =>
      simp only [get_variable_name_for_string, if_neg hn, List.map_cons, string_data_mk]
      exact gvn_core _ _ (ite_ne_empty _ _ _ (underscore_append_ne_empty _) (mk_cons_ne_empty _ _))

/-- Claim C10: `get_variable_name_for_string` returns the empty string exactly on the
empty input name, and for a nonempty name the returned identifier is never an element
of the scope, so bindings introduced by `process_dict_like` and the labelled
dictionary handling never shadow a name already bound in the enclosing generated
scope. -/
theorem claim_C10 (name : String) (scope : List String) :
    (get_variable_name_for_string name scope = "" ↔ name = "") ∧
    (name ≠ "" → get_variable_name_for_string name scope ∉ scope) := by
  by_cases hn : name = ""
  · subst hn
    refine ⟨by simp [get_variable_name_for_string], fun h => absurd rfl h⟩
  · have hs := gvn_spec name scope hn
    exact ⟨⟨fun h => absurd h hs.2, fun h => absurd h hn⟩, fun _ => hs.1⟩

/-- Witness for claim C10 at concrete inputs. -/
theorem claim_C10_witness :
    get_variable_name_for_string "x" ["x", "x_1"] ∉ ["x", "x_1"] ∧
    (get_variable_name_for_string "" ["a"] = "" ↔ ("" : String) = "") :=
  ⟨(claim_C10 "x" ["x", "x_1"]).2 (by decide), (claim_C10 "" ["a"]).1⟩

/-- Claim C8: the sanitizer maps `"my field!"` with empty scope to `"my_field_"`,
`"3x"` to `"_3x"`, and `"x"` with `"x"` already in scope to `"x_1"`. -/
theorem claim_C8 :
    get_variable_name_for_string "my field!" [] = "my_field_" ∧
    get_variable_name_for_string "3x" [] = "_3x" ∧
    get_variable_name_for_string "x" ["x"] = "x_1" := by
  refine ⟨?_, ?_, ?_⟩ <;> decide

/-! ### Claim C7: `format_value` -/

/-- Claim C7: `format_value` is pure and renders: `None` as `"None"`; strings
newline-escaped, truncated with an ellipsis marker when the escaped string exceeds
100 characters; datetimes as ISO-8601; non-empty all-string sequences as a
bracketed, comma-joined, quoted list; the empty list as `"[]"`; numpy arrays of
size at least 10 as the shape/dtype summary; and everything else by the generic
string conversion `pyStr`. -/
theorem claim_C7 :
    (format_value .vnone = "None")
    ∧ (∀ s : String, format_value (.vstr s) =
        (if 100 < (escapeNewlines s).length then strTake (escapeNewlines s) 97 ++ "..."
         else escapeNewlines s))
    ∧ (∀ iso : String, format_value (.vdatetime iso) = iso)
    ∧ (∀ xs : List NwbValue, xs ≠ [] → allStr xs = true →
        format_value (.vlist xs) = "[" ++ strIntercalate ", " (pyReprList xs) ++ "]")
    ∧ (∀ xs : List NwbValue, xs ≠ [] → allStr xs = true →
        format_value (.vtuple xs) = "[" ++ strIntercalate ", " (pyReprList xs) ++ "]")
    ∧ (format_value (.vlist []) = "[]")
    ∧ (∀ shape dtype render items, 10 ≤ shape.prod →
        format_value (.ndarray shape dtype render items) =
          "Array with shape " ++ pyShapeRepr shape ++ "; dtype " ++ dtype)
    ∧ (∀ n : Int, format_value (.vint n) = pyStr (.vint n))
    ∧ (∀ r : String, format_value (.vfloat r) = pyStr (.vfloat r))
    ∧ (∀ b : Bool, format_value (.vbool b) = pyStr (.vbool b))
    ∧ (∀ d : H5DatasetData, format_value (.dataset d) = pyStr (.dataset d))
    ∧ (∀ t fs tb, format_value (.container t fs tb) = pyStr (.container t fs tb))
    ∧ (∀ es, format_value (.labelledDict es) = pyStr (.labelledDict es))
    ∧ (∀ t r, format_value (.other t r) = pyStr (.other t r)) := by
  refine ⟨rfl, fun s => rfl, fun iso => rfl, ?_, ?_, rfl, ?_, fun n => rfl, fun r => rfl,
    fun b => rfl, fun d => rfl, fun t fs tb => rfl, fun es => rfl, fun t r => rfl⟩
  · intro xs hne hall
    have hlen : ¬ xs.length = 0 := by
      intro h
      exact hne (List.length_eq_zero.1 h)
    simp [format_value, hlen, hall]
  · intro xs hne hall
    have hlen : ¬ xs.length = 0 := by
      intro h
      exact hne (List.length_eq_zero.1 h)
    simp [format_value, hlen, hall]
  · intro shape dtype render items h10
    have h0 : ¬ shape.prod = 0 := by omega
    have h9 : ¬ shape.prod < 10 := by omega
    simp [format_value, h0, h9]

/-- Witness for claim C7 at concrete inputs. -/
theorem claim_C7_witness :
    format_value (.vlist [.vstr "a", .vstr "b"]) =
      "[" ++ strIntercalate ", " (pyReprList [.vstr "a", .vstr "b"]) ++ "]" ∧
    format_value (.ndarray [3, 4] "float64" "r" []) =
      "Array with shape " ++ pyShapeRepr [3, 4] ++ "; dtype float64" := by
  obtain ⟨-, -, -, h4, -, -, h7, -⟩ := claim_C7
  exact ⟨h4 [.vstr "a", .vstr "b"] (List.cons_ne_nil _ _) (by decide), h7 [3, 4] "float64" "r" [] (by decide)⟩

/-! ### Claim C2: the dict-like field limit -/

/-- Claim C2 (code bug): on a 20-key mapping with no private keys, exactly 15 item
lines are emitted, but the trailer is emitted twice: the `"# ..."` /
`"# Other fields: …"` pair appears two times, because the block at `core.py`
lines 131-135 is repeated verbatim at lines 137-139.  The spec (and the claim)
say a single summary comment. -/
theorem claim_C2_code_bug :
    process_dict_like dict20Ex "d" [] =
      ["k00 = d[\"k00\"] # (None)", "k01 = d[\"k01\"] # (None)", "k02 = d[\"k02\"] # (None)",
       "k03 = d[\"k03\"] # (None)", "k04 = d[\"k04\"] # (None)", "k05 = d[\"k05\"] # (None)",
       "k06 = d[\"k06\"] # (None)", "k07 = d[\"k07\"] # (None)", "k08 = d[\"k08\"] # (None)",
       "k09 = d[\"k09\"] # (None)", "k10 = d[\"k10\"] # (None)", "k11 = d[\"k11\"] # (None)",
       "k12 = d[\"k12\"] # (None)", "k13 = d[\"k13\"] # (None)", "k14 = d[\"k14\"] # (None)",
       "# ...", "# Other fields: k15, k16, k17, k18, k19",
       "# ...", "# Other fields: k15, k16, k17, k18, k19"] ∧
    (process_dict_like dict20Ex "d" []).count "# Other fields: k15, k16, k17, k18, k19" = 2 ∧
    (process_dict_like dict20Ex "d" []).count "# ..." = 2 := by
  refine ⟨?_, ?_, ?_⟩ <;> decide

/-! ### Claim C3: dataset sample previews -/

/-- Counterexample to claim C3 as stated: an empty rank-1 dataset (shape `(0,)`) has
element count `0 < 50` and rank 1, yet the traversal emits no preview line for it,
because the preview additionally requires `shape[0] > 0` (`core.py` line 196). -/
theorem claim_C3_counterexample :
    emptyDataset.shape.length = 1 ∧ emptyDataset.shape.prod < 50 ∧
    emptyDataset.readFails = false ∧
    process_nwb_container emptyDatasetContainerEx "nwb" [] =
      ["nwb # (NWBFile)",
       "nwb.d # (Dataset) shape (0,); dtype float64",
       "# nwb.d[:] # Access all data",
       "# nwb.d[0:n] # Access first n elements"] ∧
    (process_nwb_container emptyDatasetContainerEx "nwb" []).countP
      (fun l => strStartsWith l "# First few values of") = 0 := by
  refine ⟨rfl, by decide, rfl, ?_, ?_⟩ <;> decide

/-- Claim C3 as amended: for a dataset field, the emitted block is always the
shape/dtype line, the access-example lines, and the preview lines; the preview is
empty when the element count is at least 50 and when the read fails (only the
preview is omitted then), and for a *nonempty* rank-1 dataset with element count
below 50 and a successful read it is exactly one line listing the first
`min(10, length)` elements. -/
theorem claim_C3_amended (field_expr : String) (d : H5DatasetData) (n : Nat) :
    (nonContainerFieldLines field_expr (.dataset d) =
      (field_expr ++ " # (" ++ get_type_name (.dataset d) ++ ") shape " ++
        pyShapeRepr d.shape ++ "; dtype " ++ d.dtype)
        :: (datasetAccessLines field_expr d.shape ++ datasetPreviewLines field_expr d))
    ∧ (50 ≤ d.shape.prod → datasetPreviewLines field_expr d = [])
    ∧ (d.readFails = true → datasetPreviewLines field_expr d = [])
    ∧ (d.shape = [n] → 0 < n → d.shape.prod < 50 → d.readFails = false →
        datasetPreviewLines field_expr d =
          [replaceNewlinesSpace ("# First few values of " ++ field_expr ++ ": " ++
            npRender (d.elems1d.take (min 10 n)))]) := by
  refine ⟨rfl, ?_, ?_, ?_⟩
  · intro h50
    have hlt : ¬ d.shape.prod < 50 := by omega
    simp [datasetPreviewLines, hlt]
  · intro hrf
    simp [datasetPreviewLines, hrf]
  · intro hsh hn h50 hrf
    obtain ⟨sh, dt, e1, r0, rf⟩ := d
    simp only at hsh hrf h50
    subst hsh
    subst hrf
    simp [datasetPreviewLines, h50, hn]
    simpa using h50

/-- Witness for claim C3 at concrete datasets: a 50-element dataset gets no preview,
a failing read gets no preview, a 3-element rank-1 dataset gets exactly its one
preview line. -/
theorem claim_C3_witness :
    (50 ≤ (H5DatasetData.mk [10, 5] "float64" [] [] false).shape.prod ∧
      datasetPreviewLines "nwb.big" ⟨[10, 5], "float64", [], [], false⟩ = []) ∧
    ((H5DatasetData.mk [3] "int64" [] [] true).readFails = true ∧
      datasetPreviewLines "nwb.bad" ⟨[3], "int64", [], [], true⟩ = []) ∧
    datasetPreviewLines "nwb.small" ⟨[3], "int64", ["10", "20", "30"], [], false⟩ =
      [replaceNewlinesSpace ("# First few values of nwb.small: " ++
        npRender ((["10", "20", "30"] : List String).take (min 10 3)))] := by
  refine ⟨⟨by decide, (claim_C3_amended "nwb.big" ⟨[10, 5], "float64", [], [], false⟩ 0).2.1 (by decide)⟩,
    ⟨rfl, (claim_C3_amended "nwb.bad" ⟨[3], "int64", [], [], true⟩ 0).2.2.1 rfl⟩,
    (claim_C3_amended "nwb.small" ⟨[3], "int64", ["10", "20", "30"], [], false⟩ 3).2.2.2
      rfl (by decide) (by decide) rfl⟩

/-! ### Claim C6: field ordering within a container -/

theorem small_not_container {v : NwbValue} (h : is_small_value v = true) :
    isAbstractContainer v = false := by
  cases v <;> simp_all [is_small_value, isAbstractContainer]

theorem ncfEntry_small {e : String} {s : List String} {n : String} {v : NwbValue}
    (h : is_small_value v = true) :
    ncfEntryLines e s n v =
      [e ++ "." ++ n ++ " # (" ++ get_type_name v ++ ") " ++ format_value v] := by
  cases v <;> simp_all [ncfEntryLines, nonContainerFieldLines, is_small_value]

theorem ncfPass_small : ∀ (l : List (String × NwbValue)) (e : String) (s : List String),
    (∀ p ∈ l, strStartsWith p.1 "_" = false → is_small_value p.2 = true) →
    pncNonContainerPass l e s =
      (l.filter (fun p => !(strStartsWith p.1 "_"))).map
        (fun p => e ++ "." ++ p.1 ++ " # (" ++ get_type_name p.2 ++ ") " ++ format_value p.2) := by
  intro l
  induction l with
  | nil => intro e s _; rfl
  | cons hd tl ih =>
      intro e s h
      obtain ⟨n, v⟩ := hd
      have htl := fun p hp => h p (List.mem_cons_of_mem _ hp)
      cases hsw : strStartsWith n "_" with
      | true => simp [pncNonContainerPass, hsw, List.filter_cons, ih e s htl]
      | false =>
          have hsmall := h (n, v) (List.mem_cons_self _ _) hsw
          have hnc := small_not_container hsmall
          simp [pncNonContainerPass, hsw, hnc, ncfEntry_small hsmall, List.filter_cons,
            ih e s htl]

theorem cfPass_noContainers : ∀ (l : List (String × NwbValue)) (e : String) (s : List String),
    (∀ p ∈ l, strStartsWith p.1 "_" = false → isAbstractContainer p.2 = false) →
    pncContainerPass l e s = [] := by
  intro l
  induction l with
  | nil => intro e s _; rfl
  | cons hd tl ih =>
      intro e s h
      obtain ⟨n, v⟩ := hd
      have htl := fun p hp => h p (List.mem_cons_of_mem _ hp)
      cases hsw : strStartsWith n "_" with
      | true => simp [pncContainerPass, hsw, ih e s htl]
      | false =>
          have hnc := h (n, v) (List.mem_cons_self _ _) hsw
          simp [pncContainerPass, hsw, hnc, ih e s htl]

/-- Counterexample to claim C6 as stated: a container whose only field is a (small,
rank-1) dataset — a non-container value — emits four lines for that single field
(shape/dtype line, two commented access lines, one preview line), not one line per
field: the output has 5 lines where the claim predicts 2. -/
theorem claim_C6_counterexample :
    isAbstractContainer (NwbValue.dataset ⟨[3], "int64", ["10", "20", "30"], [], false⟩) = false ∧
    process_nwb_container datasetContainerEx "nwb" [] =
      ["nwb # (NWBFile)",
       "nwb.d # (Dataset) shape (3,); dtype int64",
       "# nwb.d[:] # Access all data",
       "# nwb.d[0:n] # Access first n elements",
       "# First few values of nwb.d: [10 20 30]"] ∧
    (process_nwb_container datasetContainerEx "nwb" []).length ≠ 2 := by
  refine ⟨rfl, ?_, ?_⟩ <;> decide

/-- Claim C6 as amended: (a) the output of a container is always its summary line,
then the non-container pass, then the container pass, then the tabular lines — so
all non-container field lines precede all nested-container lines; (b) for a
non-tabular container whose non-private fields all hold small scalar values, the
output is exactly the summary line followed by one inline line per non-private
field, in field order. -/
theorem claim_C6_amended (typeName : String) (fields : List (String × NwbValue))
    (table : Option TableData) (e : String) (scope : List String) :
    (process_nwb_container (.container typeName fields table) e scope =
      (e ++ " # (" ++ typeName ++ ")")
        :: (pncNonContainerPass fields e scope ++
            (pncContainerPass fields e scope ++ dynamicTableLines table e)))
    ∧ ((∀ p ∈ fields, strStartsWith p.1 "_" = false → is_small_value p.2 = true) →
        process_nwb_container (.container typeName fields none) e scope =
          (e ++ " # (" ++ typeName ++ ")")
            :: (fields.filter (fun p => !(strStartsWith p.1 "_"))).map
                (fun p => e ++ "." ++ p.1 ++ " # (" ++ get_type_name p.2 ++ ") " ++ format_value p.2)) := by
  constructor
  · rfl
  · intro h
    have hcf : ∀ p ∈ fields, strStartsWith p.1 "_" = false → isAbstractContainer p.2 = false :=
      fun p hp hs => small_not_container (h p hp hs)
    simp [process_nwb_container, ncfPass_small fields e scope h,
      cfPass_noContainers fields e scope hcf, dynamicTableLines]

/-- Witness for claim C6 on a concrete all-scalar container. -/
theorem claim_C6_witness :
    process_nwb_container
        (.container "Subject" [("age", .vstr "P30D"), ("species", .vstr "Mouse")] none)
        "nwb.subject" [] =
      ("nwb.subject # (Subject)")
        :: ([("age", NwbValue.vstr "P30D"), ("species", NwbValue.vstr "Mouse")].filter
              (fun p => !(strStartsWith p.1 "_"))).map
            (fun p => "nwb.subject" ++ "." ++ p.1 ++ " # (" ++ get_type_name p.2 ++ ") " ++
              format_value p.2) :=
  (claim_C6_amended "Subject" [("age", .vstr "P30D"), ("species", .vstr "Mouse")] none
    "nwb.subject" []).2 (by decide)

/-! ### Claim C9: `VectorIndex` example lines and the truncation marker -/

theorem filterQuad_length : ∀ (n : Nat) (f : Nat → String),
    ((List.range n).filterMap (fun j => if j ≤ 3 then some (f j) else none)).length = min n 4 := by
  intro n f
  induction n with
  | zero => simp
  | succ n ih =>
      rw [List.range_succ, List.filterMap_append, List.length_append, ih]
      by_cases h : n ≤ 3
      · simp [List.filterMap_cons, h]
        omega
      · simp [List.filterMap_cons, h]
        omega

theorem vectorIndexExampleLines_length (e c : String) (index : List String) :
    (vectorIndexExampleLines e c index).length = min index.length 4 :=
  filterQuad_length index.length _

/-- Counterexample to claim C9 as stated: a `VectorIndex` column with exactly 4
index entries gets 4 example lines — all of its entries — and the truncation
marker `"# ..."` is emitted anyway, because the source emits the marker whenever
`len > 3` (`core.py` line 245), not only when entries beyond those shown exist. -/
theorem claim_C9_counterexample :
    vcol4Ex.index.length = 4 ∧
    process_nwb_container table4Ex "nwb.trials" [] =
      ["nwb.trials # (TimeIntervals)",
       "# nwb.trials.to_dataframe() # (DataFrame) Convert to a pandas DataFrame with 2 rows and 1 columns",
       "# nwb.trials.to_dataframe().head() # (DataFrame) Show the first few rows of the pandas DataFrame",
       "nwb.trials.col # (VectorIndex) example column",
       "# nwb.trials.col_index[0] # (VectorData)",
       "# nwb.trials.col_index[1] # (VectorData)",
       "# nwb.trials.col_index[2] # (VectorData)",
       "# nwb.trials.col_index[3] # (VectorData)",
       "# ..."] ∧
    (process_nwb_container table4Ex "nwb.trials" []).countP
        (fun l => strStartsWith l "# nwb.trials.col_index[") = 4 ∧
    "# ..." ∈ process_nwb_container table4Ex "nwb.trials" [] := by
  refine ⟨rfl, ?_, ?_, ?_⟩ <;> decide

/-- Claim C9 as amended: for a `VectorIndex` column, the emitted block is the
description line, then `min(len, 4)` example indexed-access lines, then the
truncation marker if and only if the column has more than 3 index entries (so
with exactly 4 entries the marker appears even though all entries are shown). -/
theorem claim_C9_amended (e : String) (col : TableCol) (h : col.typeName = "VectorIndex") :
    tableColLines e col =
      (e ++ "." ++ col.name ++ " # (" ++ col.typeName ++ ") " ++ col.description)
        :: (vectorIndexExampleLines e col.name col.index ++
            (if 3 < col.index.length then ["# ..."] else []))
    ∧ (vectorIndexExampleLines e col.name col.index).length = min col.index.length 4 := by
  constructor
  · simp [tableColLines, h]
  · exact vectorIndexExampleLines_length e col.name col.index

/-- Witness for claim C9 on a 6-entry index column: 4 example lines plus the
marker. -/
theorem claim_C9_witness :
    tableColLines "nwb.t" vcol6Ex =
      ("nwb.t" ++ "." ++ vcol6Ex.name ++ " # (" ++ vcol6Ex.typeName ++ ") " ++ vcol6Ex.description)
        :: (vectorIndexExampleLines "nwb.t" vcol6Ex.name vcol6Ex.index ++
            (if 3 < vcol6Ex.index.length then ["# ..."] else [])) ∧
    (vectorIndexExampleLines "nwb.t" vcol6Ex.name vcol6Ex.index).length = min vcol6Ex.index.length 4 :=
  claim_C9_amended "nwb.t" vcol6Ex rfl

/-! ### Claim C4: script assembly for local and remote inputs

Every line emitted by the traversal contains a `#` or an `=` (`MarkedLine`), so no
traversal line can collide with the plain `import remfile` / `import lindi` header
lines. -/

theorem mlHash (s : String) (h : Char.ofNat 35 ∈ s.data) : MarkedLine s := Or.inl h

theorem mlA {a : String} (b : String) (h : MarkedLine a) : MarkedLine (a ++ b) := by
  rcases h with h | h
  · exact Or.inl (by rw [String.data_append]; exact List.mem_append_left _ h)
  · exact Or.inr (by rw [String.data_append]; exact List.mem_append_left _ h)

theorem mlB (a : String) {b : String} (h : MarkedLine b) : MarkedLine (a ++ b) := by
  rcases h with h | h
  · exact Or.inl (by rw [String.data_append]; exact List.mem_append_right _ h)
  · exact Or.inr (by rw [String.data_append]; exact List.mem_append_right _ h)

theorem marked_replaceNewlinesSpace {s : String} (h : MarkedLine s) :
    MarkedLine (replaceNewlinesSpace s) := by
  rcases h with h | h
  · refine Or.inl ?_
    rw [replaceNewlinesSpace, string_data_mk]
    exact List.mem_map.2 ⟨Char.ofNat 35, h, by decide⟩
  · refine Or.inr ?_
    rw [replaceNewlinesSpace, string_data_mk]
    exact List.mem_map.2 ⟨Char.ofNat 61, h, by decide⟩

theorem marked_accessLines (fe : String) (sh : List Nat) :
    ∀ l ∈ datasetAccessLines fe sh, MarkedLine l := by
  intro l hl
  rw [datasetAccessLines] at hl
  repeat' split at hl
  all_goals
    first
    | exact absurd hl (List.not_mem_nil l)
    | (simp only [List.mem_cons, List.not_mem_nil, or_false] at hl
       rcases hl with rfl | rfl | rfl <;>
         exact mlA _ (mlA fe (mlHash _ (by decide))))

theorem marked_previewLines (fe : String) (d : H5DatasetData) :
    ∀ l ∈ datasetPreviewLines fe d, MarkedLine l := by
  intro l hl
  rw [datasetPreviewLines] at hl
  repeat' split at hl
  all_goals
    first
    | exact absurd hl (List.not_mem_nil l)
    | (simp only [List.mem_singleton] at hl
       subst hl
       exact marked_replaceNewlinesSpace (mlA _ (mlA _ (mlA fe (mlHash _ (by decide))))))

theorem mlEq (s : String) (h : Char.ofNat 61 ∈ s.data) : MarkedLine s := Or.inr h

theorem marked_ncfLines (fe : String) (v : NwbValue) :
    ∀ l ∈ nonContainerFieldLines fe v, MarkedLine l := by
  cases v <;> intro l hl <;> simp only [nonContainerFieldLines] at hl
  case dataset d =>
    simp only [List.mem_cons, List.mem_append] at hl
    rcases hl with rfl | hl | hl
    · repeat' first
        | exact mlHash _ (by decide)
        | exact mlB _ (mlHash _ (by decide))
        | apply mlA
    · exact marked_accessLines fe d.shape l hl
    · exact marked_previewLines fe d l hl
  all_goals
    split at hl <;> (simp only [List.mem_singleton] at hl; subst hl) <;>
      repeat' first
        | exact mlHash _ (by decide)
        | exact mlB _ (mlHash _ (by decide))
        | apply mlA

theorem marked_vectorIndexLines (e c : String) (index : List String) :
    ∀ l ∈ vectorIndexExampleLines e c index, MarkedLine l := by
  intro l hl
  rw [vectorIndexExampleLines] at hl
  rcases List.mem_filterMap.1 hl with ⟨j, -, hj⟩
  split at hj
  · rw [Option.some.injEq] at hj
    subst hj
    repeat' first
      | exact mlHash _ (by decide)
      | exact mlB _ (mlHash _ (by decide))
      | apply mlA
  · exact absurd hj (by simp)

theorem marked_tableColLines (e : String) (col : TableCol) :
    ∀ l ∈ tableColLines e col, MarkedLine l := by
  intro l hl
  rw [tableColLines] at hl
  simp only [List.mem_cons] at hl
  rcases hl with rfl | hl
  · repeat' first
      | exact mlB _ (mlHash _ (by decide))
      | apply mlA
  · split at hl
    · rcases List.mem_append.1 hl with hl | hl
      · exact marked_vectorIndexLines e col.name col.index l hl
      · split at hl
        · simp only [List.mem_singleton] at hl
          subst hl
          exact mlHash _ (by decide)
        · exact absurd hl (List.not_mem_nil l)
    · exact absurd hl (List.not_mem_nil l)

theorem marked_dynamicTableLines (tb : Option TableData) (e : String) :
    ∀ l ∈ dynamicTableLines tb e, MarkedLine l := by
  cases tb with
  | none => intro l hl; exact absurd hl (List.not_mem_nil l)
  | some t =>
      intro l hl
      rw [dynamicTableLines] at hl
      simp only [List.mem_cons] at hl
      rcases hl with rfl | rfl | hl
      · repeat' first
          | exact mlHash _ (by decide)
          | exact mlB _ (mlHash _ (by decide))
          | apply mlA
      · repeat' first
          | exact mlHash _ (by decide)
          | exact mlB _ (mlHash _ (by decide))
          | apply mlA
      · rcases List.mem_flatMap.1 hl with ⟨col, -, hcol⟩
        exact marked_tableColLines e col l hcol

mutual

theorem marked_pnc : (v : NwbValue) → (e : String) → (s : List String) →
    ∀ l ∈ process_nwb_container v e s, MarkedLine l
  | .container t fields tb, e, s => by
      intro l hl
      rw [process_nwb_container] at hl
      simp only [List.mem_cons, List.mem_append] at hl
      rcases hl with rfl | hl | hl | hl
      · repeat' first
          | exact mlHash _ (by decide)
          | exact mlB _ (mlHash _ (by decide))
          | apply mlA
      · exact marked_ncfPass fields e s l hl
      · exact marked_cfPass fields e s l hl
      · exact marked_dynamicTableLines tb e l hl
  | .labelledDict entries, e, s => by
      intro l hl
      rw [process_nwb_container] at hl
      exact marked_pdl entries e s 0 [] l hl
  | .dict entries, e, s => by
      intro l hl
      rw [process_nwb_container] at hl
      exact marked_pdl entries e s 0 [] l hl
  | .vlist xs, e, s => by
      intro l hl
      rw [process_nwb_container] at hl
      exact marked_iter xs 0 e s l hl
  | .vtuple xs, e, s => by
      intro l hl
      rw [process_nwb_container] at hl
      exact marked_iter xs 0 e s l hl
  | .ndarray sh dt r items, e, s => by
      intro l hl
      rw [process_nwb_container] at hl
      exact marked_iter items 0 e s l hl
  | .iterable t xs, e, s => by
      intro l hl
      rw [process_nwb_container] at hl
      exact marked_iter xs 0 e s l hl
  | .vnone, e, s => by
      intro l hl
      simp [process_nwb_container] at hl
  | .vstr s0, e, s => by
      intro l hl
      simp [process_nwb_container] at hl
  | .vint n0, e, s => by
      intro l hl
      simp [process_nwb_container] at hl
  | .vfloat r, e, s => by
      intro l hl
      simp [process_nwb_container] at hl
  | .vbool b, e, s => by
      intro l hl
      simp [process_nwb_container] at hl
  | .vdatetime iso, e, s => by
      intro l hl
      simp [process_nwb_container] at hl
  | .dataset d, e, s => by
      intro l hl
      simp [process_nwb_container] at hl
  | .other t r, e, s => by
      intro l hl
      simp [process_nwb_container] at hl

theorem marked_ncfEntry : (e : String) → (s : List String) → (n : String) → (v : NwbValue) →
    ∀ l ∈ ncfEntryLines e s n v, MarkedLine l
  | e, s, n, .labelledDict entries => by
      intro l hl
      rw [ncfEntryLines] at hl
      rcases List.mem_append.1 hl with hl | hl
      · exact marked_ncfLines _ _ l hl
      · simp only at hl
        split at hl
        · simp only [List.mem_cons] at hl
          rcases hl with rfl | hl
          · repeat' first
              | exact mlEq _ (by decide)
              | exact mlB _ (mlEq _ (by decide))
              | apply mlA
          · exact marked_pdl entries _ _ 0 [] l hl
        · exact marked_pdl entries _ _ 0 [] l hl
  | e, s, n, .vnone => by
      intro l hl
      simp only [ncfEntryLines, List.append_nil] at hl
      exact marked_ncfLines _ _ l hl
  | e, s, n, .vstr s0 => by
      intro l hl
      simp only [ncfEntryLines, List.append_nil] at hl
      exact marked_ncfLines _ _ l hl
  | e, s, n, .vint n0 => by
      intro l hl
      simp only [ncfEntryLines, List.append_nil] at hl
      exact marked_ncfLines _ _ l hl
  | e, s, n, .vfloat r0 => by
      intro l hl
      simp only [ncfEntryLines, List.append_nil] at hl
      exact marked_ncfLines _ _ l hl
  | e, s, n, .vbool b0 => by
      intro l hl
      simp only [ncfEntryLines, List.append_nil] at hl
      exact marked_ncfLines _ _ l hl
  | e, s, n, .vdatetime iso => by
      intro l hl
      simp only [ncfEntryLines, List.append_nil] at hl
      exact marked_ncfLines _ _ l hl
  | e, s, n, .vlist xs => by
      intro l hl
      simp only [ncfEntryLines, List.append_nil] at hl
      exact marked_ncfLines _ _ l hl
  | e, s, n, .vtuple xs => by
      intro l hl
      simp only [ncfEntryLines, List.append_nil] at hl
      exact marked_ncfLines _ _ l hl
  | e, s, n, .ndarray sh dt r0 items => by
      intro l hl
      simp only [ncfEntryLines, List.append_nil] at hl
      exact marked_ncfLines _ _ l hl
  | e, s, n, .dataset d => by
      intro l hl
      simp only [ncfEntryLines, List.append_nil] at hl
      exact marked_ncfLines _ _ l hl
  | e, s, n, .container t fs tb => by
      intro l hl
      simp only [ncfEntryLines, List.append_nil] at hl
      exact marked_ncfLines _ _ l hl
  | e, s, n, .dict entries2 => by
      intro l hl
      simp only [ncfEntryLines, List.append_nil] at hl
      exact marked_ncfLines _ _ l hl
  | e, s, n, .iterable t xs => by
      intro l hl
      simp only [ncfEntryLines, List.append_nil] at hl
      exact marked_ncfLines _ _ l hl
  | e, s, n, .other t r0 => by
      intro l hl
      simp only [ncfEntryLines, List.append_nil] at hl
      exact marked_ncfLines _ _ l hl

theorem marked_ncfPass : (fl : List (String × NwbValue)) → (e : String) → (s : List String) →
    ∀ l ∈ pncNonContainerPass fl e s, MarkedLine l
  | [], e, s => by
      intro l hl
      rw [pncNonContainerPass] at hl
      exact absurd hl (List.not_mem_nil l)
  | (n, v) :: rest, e, s => by
      intro l hl
      rw [pncNonContainerPass] at hl
      split at hl
      · exact marked_ncfPass rest e s l hl
      · split at hl
        · exact marked_ncfPass rest e s l hl
        · rcases List.mem_append.1 hl with hl | hl
          · exact marked_ncfEntry e s n v l hl
          · exact marked_ncfPass rest e s l hl

theorem marked_cfPass : (fl : List (String × NwbValue)) → (e : String) → (s : List String) →
    ∀ l ∈ pncContainerPass fl e s, MarkedLine l
  | [], e, s => by
      intro l hl
      rw [pncContainerPass] at hl
      exact absurd hl (List.not_mem_nil l)
  | (n, v) :: rest, e, s => by
      intro l hl
      rw [pncContainerPass] at hl
      split at hl
      · exact marked_cfPass rest e s l hl
      · split at hl
        · rcases List.mem_append.1 hl with hl | hl
          · exact marked_pnc v _ s l hl
          · exact marked_cfPass rest e s l hl
        · exact marked_cfPass rest e s l hl

theorem marked_iter : (xs : List NwbValue) → (i : Nat) → (e : String) → (s : List String) →
    ∀ l ∈ pncIterLoop xs i e s, MarkedLine l
  | [], i, e, s => by
      intro l hl
      rw [pncIterLoop] at hl
      exact absurd hl (List.not_mem_nil l)
  | x :: rest, i, e, s => by
      intro l hl
      rw [pncIterLoop] at hl
      split at hl
      · simp only [List.mem_singleton] at hl
        subst hl
        repeat' first
          | exact mlHash _ (by decide)
          | exact mlB _ (mlHash _ (by decide))
          | apply mlA
      · rcases List.mem_append.1 hl with hl | hl
        · exact marked_pnc x _ s l hl
        · exact marked_iter rest (i + 1) e s l hl

theorem marked_pdl : (entries : List (String × NwbValue)) → (e : String) → (s : List String) →
    (num : Nat) → (unshown : List String) →
    ∀ l ∈ pdlLoop entries e s num unshown, MarkedLine l
  | [], e, s, num, unshown => by
      intro l hl
      rw [pdlLoop] at hl
      split at hl
      · exact absurd hl (List.not_mem_nil l)
      · simp only [List.mem_cons, List.not_mem_nil, or_false] at hl
        rcases hl with rfl | rfl | rfl | rfl <;>
          first
          | exact mlHash _ (by decide)
          | exact mlA _ (mlHash _ (by decide))
  | (k, v) :: rest, e, s, num, unshown => by
      intro l hl
      rw [pdlLoop] at hl
      split at hl
      · exact marked_pdl rest e s num unshown l hl
      · split at hl
        · exact marked_pdl rest e s num (unshown ++ [k]) l hl
        · simp only at hl
          split at hl
          · simp only [List.mem_cons, List.mem_append] at hl
            rcases hl with rfl | hl | hl
            · by_cases htn : (if isAbstractContainer v = true then "" else get_type_name v) ≠ ""
              · rw [if_pos htn]
                repeat' first
                  | exact mlEq _ (by decide)
                  | exact mlB _ (mlEq _ (by decide))
                  | apply mlA
              · rw [if_neg htn]
                repeat' first
                  | exact mlEq _ (by decide)
                  | exact mlB _ (mlEq _ (by decide))
                  | apply mlA
            · exact marked_pnc v _ _ l hl
            · exact marked_pdl rest e s (num + 1) unshown l hl
          · simp only [List.mem_cons, List.mem_append] at hl
            rcases hl with rfl | hl | hl
            · repeat' first
                | exact mlHash _ (by decide)
                | exact mlB _ (mlHash _ (by decide))
                | apply mlA
            · exact marked_pnc v _ s l hl
            · exact marked_pdl rest e s (num + 1) unshown l hl

end

/-- Claim C4: for the local, non-lindi input `"/tmp/sample.myformat"` the generated
output begins with the header line, contains the `path = …` line, and contains no
`import remfile` or `import lindi` line; for the remote, non-lindi input
`"https://host/file"` the header includes `import remfile`, the `url = …` line and
`remote_file = remfile.File(url)`. -/
theorem claim_C4 (root : NwbValue) (resolve : String → String → String → List String)
    (outA outB : List String)
    (hA : get_nwbfile_usage_script "/tmp/sample.myformat" root resolve = Except.ok outA)
    (hB : get_nwbfile_usage_script "https://host/file" root resolve = Except.ok outB) :
    outA.head? =
      some "# This script shows how to load the NWB file at /tmp/sample.myformat in Python using PyNWB"
    ∧ "path = \"/tmp/sample.myformat\"" ∈ outA
    ∧ "import remfile" ∉ outA
    ∧ "import lindi" ∉ outA
    ∧ "import remfile" ∈ outB
    ∧ "url = \"https://host/file\"" ∈ outB
    ∧ "remote_file = remfile.File(url)" ∈ outB := by
  rw [get_nwbfile_usage_script, if_neg (by decide)] at hA
  rw [get_nwbfile_usage_script, if_neg (by decide)] at hB
  injection hA with hA
  injection hB with hB
  subst hA
  subst hB
  refine ⟨rfl, List.mem_append_left _ (by decide), ?_, ?_,
    List.mem_append_left _ (by decide), List.mem_append_left _ (by decide),
    List.mem_append_left _ (by decide)⟩
  · intro h
    rcases List.mem_append.1 h with h | h
    · exact absurd h (by decide)
    · rcases marked_pnc root "nwb" [] _ h with hm | hm <;> exact absurd hm (by decide)
  · intro h
    rcases List.mem_append.1 h with h | h
    · exact absurd h (by decide)
    · rcases marked_pnc root "nwb" [] _ h with hm | hm <;> exact absurd hm (by decide)

/-- Witness for claim C4 with a concrete root container and resolver. -/
theorem claim_C4_witness :
    (headerLines "/tmp/sample.myformat" ++ process_nwb_container NwbValue.vnone "nwb" []).head? =
      some "# This script shows how to load the NWB file at /tmp/sample.myformat in Python using PyNWB"
    ∧ "path = \"/tmp/sample.myformat\"" ∈
        headerLines "/tmp/sample.myformat" ++ process_nwb_container NwbValue.vnone "nwb" []
    ∧ "import remfile" ∉
        headerLines "/tmp/sample.myformat" ++ process_nwb_container NwbValue.vnone "nwb" []
    ∧ "import lindi" ∉
        headerLines "/tmp/sample.myformat" ++ process_nwb_container NwbValue.vnone "nwb" []
    ∧ "import remfile" ∈
        headerLines "https://host/file" ++ process_nwb_container NwbValue.vnone "nwb" []
    ∧ "url = \"https://host/file\"" ∈
        headerLines "https://host/file" ++ process_nwb_container NwbValue.vnone "nwb" []
    ∧ "remote_file = remfile.File(url)" ∈
        headerLines "https://host/file" ++ process_nwb_container NwbValue.vnone "nwb" [] :=
  claim_C4 NwbValue.vnone (fun _ _ _ => []) _ _ rfl rfl

/-! ### Claim C5: DANDI reference validation and the header-rewrite invariant -/

theorem dandiRewriteLoop_found (dandiset_id dandiset_version dandiset_file_path : String) :
    ∀ lines : List String,
      (dandiRewriteLoop dandiset_id dandiset_version dandiset_file_path lines).2 =
        lines.any (fun l => strStartsWith l headerMarker) := by
  intro lines
  induction lines with
  | nil => rfl
  | cons line rest ih =>
      rw [dandiRewriteLoop]
      cases hsw : strStartsWith line headerMarker with
      | true => simp [hsw]
      | false =>
          simp only [hsw, Bool.false_eq_true, if_false, List.any_cons, Bool.false_or]
          split <;> simpa using ih

/-- Claim C5: for a reference starting with `"DANDI:"` whose remainder splits into
fewer than 3 colon-separated segments, `get_nwbfile_usage_script` raises the
descriptive `ValueError` — for every possible archive resolver, i.e. before any
network call; and when the reference is well-formed but the resolved script contains
no line starting with the expected header marker, the internal-consistency
exception is raised. -/
theorem claim_C5 (url : String) (root : NwbValue)
    (resolve : String → String → String → List String)
    (hd : strStartsWith url "DANDI:" = true) :
    (((strSplitOnChar (strDrop url "DANDI:".length) (Char.ofNat 58)).length < 3 →
        get_nwbfile_usage_script url root resolve =
          Except.error "Invalid DANDI URL format. Expected format: DANDI:[ID]:[VERSION]:[path]"))
    ∧ (3 ≤ (strSplitOnChar (strDrop url "DANDI:".length) (Char.ofNat 58)).length →
        (∀ a b c, ∀ l ∈ resolve a b c, strStartsWith l headerMarker = false) →
        get_nwbfile_usage_script url root resolve =
          Except.error "Unexpected: could not find a header line in the script") := by
  constructor
  · intro hlen
    rw [get_nwbfile_usage_script, if_pos hd, if_pos hlen]
  · intro hlen hres
    rw [get_nwbfile_usage_script, if_pos hd, if_neg (by omega)]
    rw [if_neg ?_]
    rw [dandiRewriteLoop_found]
    simp only [List.any_eq_true, not_exists, not_and]
    intro l hl
    simp [hres _ _ _ l hl]

/-- Witness for claim C5: a malformed reference errors for an arbitrary resolver,
and a well-formed reference whose resolved script lacks the header line raises the
internal-consistency error. -/
theorem claim_C5_witness :
    get_nwbfile_usage_script "DANDI:000123:0.1.0" NwbValue.vnone (fun _ _ _ => ["x"]) =
      Except.error "Invalid DANDI URL format. Expected format: DANDI:[ID]:[VERSION]:[path]"
    ∧ get_nwbfile_usage_script "DANDI:000123:0.1.0:sub-1/file.nwb" NwbValue.vnone
        (fun _ _ _ => ["nothing here"]) =
      Except.error "Unexpected: could not find a header line in the script" := by
  constructor
  · exact (claim_C5 "DANDI:000123:0.1.0" NwbValue.vnone (fun _ _ _ => ["x"]) (by decide)).1
      (by decide)
  · refine (claim_C5 "DANDI:000123:0.1.0:sub-1/file.nwb" NwbValue.vnone
      (fun _ _ _ => ["nothing here"]) (by decide)).2 (by decide) ?_
    intro a b c l hl
    simp only [List.mem_singleton] at hl
    subst hl
    decide

/-! ### Claim C1: no cycle guard; termination and per-path uniqueness -/

theorem pncG_cyclic_none : ∀ fuel, ∀ (e : String) (s : List String),
    pncG cyclicStore fuel 0 e s = none := by
  intro fuel
  induction fuel with
  | zero => intro e s; rfl
  | succ fuel ih =>
      intro e s
      have ih2 := ih (e ++ "." ++ "b") s
      rw [cyclicStore] at ih2
      have hb : strStartsWith "b" "_" = false := by decide
      simp [pncG, cyclicStore, hb, ih2]

/-- Counterexample to claim C1 as stated: `process_nwb_container` has no
visited-set, so on the entity graph whose single container holds a field `b`
referring back to itself the recursion never terminates: no recursion depth
suffices. -/
theorem claim_C1_counterexample : ¬ GTerminates cyclicStore 0 := by
  rintro ⟨fuel, h⟩
  exact h (pncG_cyclic_none fuel "nwb" [])

theorem nodupStr_iff : ∀ l : List String, nodupStr l = true ↔ l.Nodup := by
  intro l
  induction l with
  | nil => simp [nodupStr]
  | cons x xs ih => simp [nodupStr, List.nodup_cons, ih, List.elem_iff]

theorem keyUnique : ∀ {l : List (String × NwbValue)}, (l.map Prod.fst).Nodup →
    ∀ {n : String} {a b : NwbValue}, (n, a) ∈ l → (n, b) ∈ l → a = b := by
  intro l
  induction l with
  | nil => intro _ n a b ha; simp at ha
  | cons hd tl ih =>
      intro h n a b ha hb
      obtain ⟨m, c⟩ := hd
      rw [List.map_cons, List.nodup_cons] at h
      rcases List.mem_cons.1 ha with ha | ha <;> rcases List.mem_cons.1 hb with hb | hb
      · rw [Prod.mk.injEq] at ha hb
        rw [ha.2, hb.2]
      · rw [Prod.mk.injEq] at ha
        exact absurd (ha.1 ▸ List.mem_map.2 ⟨(n, b), hb, rfl⟩) h.1
      · rw [Prod.mk.injEq] at hb
        exact absurd (hb.1 ▸ List.mem_map.2 ⟨(n, a), ha, rfl⟩) h.1
      · exact ih h.2 ha hb

theorem path_seg_eq {p : List Seg} {s1 s2 : Seg} {t1 t2 : List Seg}
    (h : p ++ s1 :: t1 = p ++ s2 :: t2) : s1 = s2 := by
  have h2 := List.append_cancel_left h
  injection h2

theorem path_ne_extend {p : List Seg} {s : Seg} {t : List Seg} : p ≠ p ++ s :: t := by
  intro h
  have h2 := congrArg List.length h
  simp at h2

theorem extend_shape {p : List Seg} {s : Seg} {q : List Seg}
    (h : q = p ++ [s] ∨ ∃ a t, q = (p ++ [s]) ++ a :: t) : ∃ t, q = p ++ s :: t := by
  rcases h with rfl | ⟨a, t, rfl⟩
  · exact ⟨[], rfl⟩
  · exact ⟨a :: t, by simp⟩

mutual

theorem mem_visitPaths : (v : NwbValue) → (p : List Seg) → ∀ q ∈ visitPaths v p,
    q = p ∨ ∃ s t, q = p ++ s :: t
  | .container t0 fields tb, p => by
      intro q hq
      rw [visitPaths] at hq
      rcases List.mem_cons.1 hq with rfl | hq
      · exact Or.inl rfl
      · rcases List.mem_append.1 hq with hq | hq
        · rcases mem_vpNcf fields p q hq with ⟨n, w, t, hqe, -, -⟩
          exact Or.inr ⟨_, _, hqe⟩
        · rcases mem_vpCf fields p q hq with ⟨n, w, t, hqe, -, -⟩
          exact Or.inr ⟨_, _, hqe⟩
  | .labelledDict entries, p => by
      intro q hq
      rw [visitPaths] at hq
      rcases mem_vpDict entries p 0 q hq with ⟨k, w, t, hqe, -⟩
      exact Or.inr ⟨_, _, hqe⟩
  | .dict entries, p => by
      intro q hq
      rw [visitPaths] at hq
      rcases mem_vpDict entries p 0 q hq with ⟨k, w, t, hqe, -⟩
      exact Or.inr ⟨_, _, hqe⟩
  | .vlist xs, p => by
      intro q hq
      rw [visitPaths] at hq
      rcases mem_vpIter xs 0 p q hq with ⟨j, t, hqe, -⟩
      exact Or.inr ⟨_, _, hqe⟩
  | .vtuple xs, p => by
      intro q hq
      rw [visitPaths] at hq
      rcases mem_vpIter xs 0 p q hq with ⟨j, t, hqe, -⟩
      exact Or.inr ⟨_, _, hqe⟩
  | .ndarray sh dt r items, p => by
      intro q hq
      rw [visitPaths] at hq
      rcases mem_vpIter items 0 p q hq with ⟨j, t, hqe, -⟩
      exact Or.inr ⟨_, _, hqe⟩
  | .iterable t0 xs, p => by
      intro q hq
      rw [visitPaths] at hq
      rcases mem_vpIter xs 0 p q hq with ⟨j, t, hqe, -⟩
      exact Or.inr ⟨_, _, hqe⟩
  | .vnone, p => by intro q hq; simp [visitPaths] at hq
  | .vstr s0, p => by intro q hq; simp [visitPaths] at hq
  | .vint n0, p => by intro q hq; simp [visitPaths] at hq
  | .vfloat r0, p => by intro q hq; simp [visitPaths] at hq
  | .vbool b0, p => by intro q hq; simp [visitPaths] at hq
  | .vdatetime iso, p => by intro q hq; simp [visitPaths] at hq
  | .dataset d, p => by intro q hq; simp [visitPaths] at hq
  | .other t0 r0, p => by intro q hq; simp [visitPaths] at hq

theorem mem_vpFieldValue : (v : NwbValue) → (p : List Seg) → ∀ q ∈ vpFieldValue v p,
    q = p ∨ ∃ s t, q = p ++ s :: t
  | .labelledDict entries, p => by
      intro q hq
      rw [vpFieldValue] at hq
      rcases mem_vpDict entries p 0 q hq with ⟨k, w, t, hqe, -⟩
      exact Or.inr ⟨_, _, hqe⟩
  | .vnone, p => by intro q hq; simp [vpFieldValue] at hq
  | .vstr s0, p => by intro q hq; simp [vpFieldValue] at hq
  | .vint n0, p => by intro q hq; simp [vpFieldValue] at hq
  | .vfloat r0, p => by intro q hq; simp [vpFieldValue] at hq
  | .vbool b0, p => by intro q hq; simp [vpFieldValue] at hq
  | .vdatetime iso, p => by intro q hq; simp [vpFieldValue] at hq
  | .vlist xs, p => by intro q hq; simp [vpFieldValue] at hq
  | .vtuple xs, p => by intro q hq; simp [vpFieldValue] at hq
  | .ndarray sh dt r0 items, p => by intro q hq; simp [vpFieldValue] at hq
  | .dataset d, p => by intro q hq; simp [vpFieldValue] at hq
  | .container t0 fs tb, p => by intro q hq; simp [vpFieldValue] at hq
  | .dict entries2, p => by intro q hq; simp [vpFieldValue] at hq
  | .iterable t0 xs, p => by intro q hq; simp [vpFieldValue] at hq
  | .other t0 r0, p => by intro q hq; simp [vpFieldValue] at hq

theorem mem_vpNcf : (l : List (String × NwbValue)) → (p : List Seg) →
    ∀ q ∈ vpNonContainerPass l p,
      ∃ n w t, q = p ++ Seg.fseg n :: t ∧ (n, w) ∈ l ∧ isAbstractContainer w = false
  | [], p => by
      intro q hq
      rw [vpNonContainerPass] at hq
      exact absurd hq (List.not_mem_nil q)
  | (n, v) :: rest, p => by
      intro q hq
      rw [vpNonContainerPass] at hq
      split at hq
      · rcases mem_vpNcf rest p q hq with ⟨n2, w, t, hqe, hm, hc⟩
        exact ⟨n2, w, t, hqe, List.mem_cons_of_mem _ hm, hc⟩
      · split at hq
        · rcases mem_vpNcf rest p q hq with ⟨n2, w, t, hqe, hm, hc⟩
          exact ⟨n2, w, t, hqe, List.mem_cons_of_mem _ hm, hc⟩
        · rename_i hpriv hnc
          rcases List.mem_append.1 hq with hq | hq
          · rcases extend_shape (mem_vpFieldValue v (p ++ [Seg.fseg n]) q hq) with ⟨t, hqe⟩
            exact ⟨n, v, t, hqe, List.mem_cons_self _ _, by simpa using hnc⟩
          · rcases mem_vpNcf rest p q hq with ⟨n2, w, t, hqe, hm, hc⟩
            exact ⟨n2, w, t, hqe, List.mem_cons_of_mem _ hm, hc⟩

theorem mem_vpCf : (l : List (String × NwbValue)) → (p : List Seg) →
    ∀ q ∈ vpContainerPass l p,
      ∃ n w t, q = p ++ Seg.fseg n :: t ∧ (n, w) ∈ l ∧ isAbstractContainer w = true
  | [], p => by
      intro q hq
      rw [vpContainerPass] at hq
      exact absurd hq (List.not_mem_nil q)
  | (n, v) :: rest, p => by
      intro q hq
      rw [vpContainerPass] at hq
      split at hq
      · rcases mem_vpCf rest p q hq with ⟨n2, w, t, hqe, hm, hc⟩
        exact ⟨n2, w, t, hqe, List.mem_cons_of_mem _ hm, hc⟩
      · split at hq
        · rename_i hpriv hcont
          rcases List.mem_append.1 hq with hq | hq
          · rcases extend_shape (mem_visitPaths v (p ++ [Seg.fseg n]) q hq) with ⟨t, hqe⟩
            exact ⟨n, v, t, hqe, List.mem_cons_self _ _, hcont⟩
          · rcases mem_vpCf rest p q hq with ⟨n2, w, t, hqe, hm, hc⟩
            exact ⟨n2, w, t, hqe, List.mem_cons_of_mem _ hm, hc⟩
        · rcases mem_vpCf rest p q hq with ⟨n2, w, t, hqe, hm, hc⟩
          exact ⟨n2, w, t, hqe, List.mem_cons_of_mem _ hm, hc⟩

theorem mem_vpDict : (l : List (String × NwbValue)) → (p : List Seg) → (num : Nat) →
    ∀ q ∈ vpDictLoop l p num,
      ∃ k w t, q = p ++ Seg.kseg k :: t ∧ (k, w) ∈ l
  | [], p, num => by
      intro q hq
      rw [vpDictLoop] at hq
      exact absurd hq (List.not_mem_nil q)
  | (k, v) :: rest, p, num => by
      intro q hq
      rw [vpDictLoop] at hq
      split at hq
      · rcases mem_vpDict rest p num q hq with ⟨k2, w, t, hqe, hm⟩
        exact ⟨k2, w, t, hqe, List.mem_cons_of_mem _ hm⟩
      · split at hq
        · rcases mem_vpDict rest p num q hq with ⟨k2, w, t, hqe, hm⟩
          exact ⟨k2, w, t, hqe, List.mem_cons_of_mem _ hm⟩
        · rcases List.mem_append.1 hq with hq | hq
          · rcases extend_shape (mem_visitPaths v (p ++ [Seg.kseg k]) q hq) with ⟨t, hqe⟩
            exact ⟨k, v, t, hqe, List.mem_cons_self _ _⟩
          · rcases mem_vpDict rest p (num + 1) q hq with ⟨k2, w, t, hqe, hm⟩
            exact ⟨k2, w, t, hqe, List.mem_cons_of_mem _ hm⟩

theorem mem_vpIter : (xs : List NwbValue) → (i : Nat) → (p : List Seg) →
    ∀ q ∈ vpIterLoop xs i p,
      ∃ j t, q = p ++ Seg.iseg j :: t ∧ i ≤ j
  | [], i, p => by
      intro q hq
      rw [vpIterLoop] at hq
      exact absurd hq (List.not_mem_nil q)
  | x :: rest, i, p => by
      intro q hq
      rw [vpIterLoop] at hq
      split at hq
      · exact absurd hq (List.not_mem_nil q)
      · rcases List.mem_append.1 hq with hq | hq
        · rcases extend_shape (mem_visitPaths x (p ++ [Seg.iseg i]) q hq) with ⟨t, hqe⟩
          exact ⟨i, t, hqe, Nat.le_refl i⟩
        · rcases mem_vpIter rest (i + 1) p q hq with ⟨j, t, hqe, hij⟩
          exact ⟨j, t, hqe, by omega⟩

end

mutual

theorem nodup_visitPaths : (v : NwbValue) → (p : List Seg) → wfv v = true →
    (visitPaths v p).Nodup
  | .container t0 fields tb, p => by
      intro h
      rw [wfv, Bool.and_eq_true] at h
      obtain ⟨hk, hw⟩ := h
      rw [visitPaths, List.nodup_cons]
      constructor
      · intro hmem
        rcases List.mem_append.1 hmem with hq | hq
        · rcases mem_vpNcf fields p p hq with ⟨n, w, t, hqe, -, -⟩
          exact path_ne_extend hqe
        · rcases mem_vpCf fields p p hq with ⟨n, w, t, hqe, -, -⟩
          exact path_ne_extend hqe
      · rw [List.nodup_append]
        refine ⟨nodup_vpNcf fields p hk hw, nodup_vpCf fields p hk hw, ?_⟩
        intro q hq1 hq2
        rcases mem_vpNcf fields p q hq1 with ⟨n1, w1, t1, hqe1, hm1, hc1⟩
        rcases mem_vpCf fields p q hq2 with ⟨n2, w2, t2, hqe2, hm2, hc2⟩
        have hseg := path_seg_eq (hqe1.symm.trans hqe2)
        have hn : n1 = n2 := by injection hseg
        subst hn
        have hww := keyUnique ((nodupStr_iff _).1 hk) hm1 hm2
        rw [hww, hc2] at hc1
        exact Bool.true_eq_false.mp hc1
  | .labelledDict entries, p => by
      intro h
      rw [wfv, Bool.and_eq_true] at h
      rw [visitPaths]
      exact nodup_vpDict entries p 0 h.1 h.2
  | .dict entries, p => by
      intro h
      rw [wfv, Bool.and_eq_true] at h
      rw [visitPaths]
      exact nodup_vpDict entries p 0 h.1 h.2
  | .vlist xs, p => by
      intro h
      rw [wfv] at h
      rw [visitPaths]
      exact nodup_vpIter xs 0 p h
  | .vtuple xs, p => by
      intro h
      rw [wfv] at h
      rw [visitPaths]
      exact nodup_vpIter xs 0 p h
  | .ndarray sh dt r items, p => by
      intro h
      rw [wfv] at h
      rw [visitPaths]
      exact nodup_vpIter items 0 p h
  | .iterable t0 xs, p => by
      intro h
      rw [wfv] at h
      rw [visitPaths]
      exact nodup_vpIter xs 0 p h
  | .vnone, p => by intro _; simp [visitPaths]
  | .vstr s0, p => by intro _; simp [visitPaths]
  | .vint n0, p => by intro _; simp [visitPaths]
  | .vfloat r0, p => by intro _; simp [visitPaths]
  | .vbool b0, p => by intro _; simp [visitPaths]
  | .vdatetime iso, p => by intro _; simp [visitPaths]
  | .dataset d, p => by intro _; simp [visitPaths]
  | .other t0 r0, p => by intro _; simp [visitPaths]

theorem nodup_vpFieldValue : (v : NwbValue) → (p : List Seg) → wfv v = true →
    (vpFieldValue v p).Nodup
  | .labelledDict entries, p => by
      intro h
      rw [wfv, Bool.and_eq_true] at h
      rw [vpFieldValue]
      exact nodup_vpDict entries p 0 h.1 h.2
  | .vnone, p => by intro _; simp [vpFieldValue]
  | .vstr s0, p => by intro _; simp [vpFieldValue]
  | .vint n0, p => by intro _; simp [vpFieldValue]
  | .vfloat r0, p => by intro _; simp [vpFieldValue]
  | .vbool b0, p => by intro _; simp [vpFieldValue]
  | .vdatetime iso, p => by intro _; simp [vpFieldValue]
  | .vlist xs, p => by intro _; simp [vpFieldValue]
  | .vtuple xs, p => by intro _; simp [vpFieldValue]
  | .ndarray sh dt r0 items, p => by intro _; simp [vpFieldValue]
  | .dataset d, p => by intro _; simp [vpFieldValue]
  | .container t0 fs tb, p => by intro _; simp [vpFieldValue]
  | .dict entries2, p => by intro _; simp [vpFieldValue]
  | .iterable t0 xs, p => by intro _; simp [vpFieldValue]
  | .other t0 r0, p => by intro _; simp [vpFieldValue]

theorem nodup_vpNcf : (l : List (String × NwbValue)) → (p : List Seg) →
    nodupStr (l.map Prod.fst) = true → wfvPairs l = true →
    (vpNonContainerPass l p).Nodup
  | [], p => by
      intro _ _
      rw [vpNonContainerPass]
      exact List.nodup_nil
  | (n, v) :: rest, p => by
      intro hk hw
      rw [List.map_cons, nodupStr, Bool.and_eq_true] at hk
      obtain ⟨hn1, hk2⟩ := hk
      have hnotin : n ∉ rest.map Prod.fst := by simpa [List.elem_iff] using hn1
      rw [wfvPairs, Bool.and_eq_true] at hw
      obtain ⟨hwv, hwr⟩ := hw
      rw [vpNonContainerPass]
      split
      · exact nodup_vpNcf rest p hk2 hwr
      · split
        · exact nodup_vpNcf rest p hk2 hwr
        · rw [List.nodup_append]
          refine ⟨nodup_vpFieldValue v _ hwv, nodup_vpNcf rest p hk2 hwr, ?_⟩
          intro q hq1 hq2
          rcases extend_shape (mem_vpFieldValue v (p ++ [Seg.fseg n]) q hq1) with ⟨t, hqe1⟩
          rcases mem_vpNcf rest p q hq2 with ⟨n2, w2, t2, hqe2, hm2, -⟩
          have hseg := path_seg_eq (hqe1.symm.trans hqe2)
          have hn : n = n2 := by injection hseg
          refine hnotin ?_
          rw [hn]
          exact List.mem_map.2 ⟨(n2, w2), hm2, rfl⟩

theorem nodup_vpCf : (l : List (String × NwbValue)) → (p : List Seg) →
    nodupStr (l.map Prod.fst) = true → wfvPairs l = true →
    (vpContainerPass l p).Nodup
  | [], p => by
      intro _ _
      rw [vpContainerPass]
      exact List.nodup_nil
  | (n, v) :: rest, p => by
      intro hk hw
      rw [List.map_cons, nodupStr, Bool.and_eq_true] at hk
      obtain ⟨hn1, hk2⟩ := hk
      have hnotin : n ∉ rest.map Prod.fst := by simpa [List.elem_iff] using hn1
      rw [wfvPairs, Bool.and_eq_true] at hw
      obtain ⟨hwv, hwr⟩ := hw
      rw [vpContainerPass]
      split
      · exact nodup_vpCf rest p hk2 hwr
      · split
        · rw [List.nodup_append]
          refine ⟨nodup_visitPaths v _ hwv, nodup_vpCf rest p hk2 hwr, ?_⟩
          intro q hq1 hq2
          rcases extend_shape (mem_visitPaths v (p ++ [Seg.fseg n]) q hq1) with ⟨t, hqe1⟩
          rcases mem_vpCf rest p q hq2 with ⟨n2, w2, t2, hqe2, hm2, -⟩
          have hseg := path_seg_eq (hqe1.symm.trans hqe2)
          have hn : n = n2 := by injection hseg
          refine hnotin ?_
          rw [hn]
          exact List.mem_map.2 ⟨(n2, w2), hm2, rfl⟩
        · exact nodup_vpCf rest p hk2 hwr

theorem nodup_vpDict : (l : List (String × NwbValue)) → (p : List Seg) → (num : Nat) →
    nodupStr (l.map Prod.fst) = true → wfvPairs l = true →
    (vpDictLoop l p num).Nodup
  | [], p, num => by
      intro _ _
      rw [vpDictLoop]
      exact List.nodup_nil
  | (k, v) :: rest, p, num => by
      intro hk hw
      rw [List.map_cons, nodupStr, Bool.and_eq_true] at hk
      obtain ⟨hn1, hk2⟩ := hk
      have hnotin : k ∉ rest.map Prod.fst := by simpa [List.elem_iff] using hn1
      rw [wfvPairs, Bool.and_eq_true] at hw
      obtain ⟨hwv, hwr⟩ := hw
      rw [vpDictLoop]
      split
      · exact nodup_vpDict rest p num hk2 hwr
      · split
        · exact nodup_vpDict rest p num hk2 hwr
        · rw [List.nodup_append]
          refine ⟨nodup_visitPaths v _ hwv, nodup_vpDict rest p (num + 1) hk2 hwr, ?_⟩
          intro q hq1 hq2
          rcases extend_shape (mem_visitPaths v (p ++ [Seg.kseg k]) q hq1) with ⟨t, hqe1⟩
          rcases mem_vpDict rest p (num + 1) q hq2 with ⟨k2, w2, t2, hqe2, hm2⟩
          have hseg := path_seg_eq (hqe1.symm.trans hqe2)
          have hn : k = k2 := by injection hseg
          refine hnotin ?_
          rw [hn]
          exact List.mem_map.2 ⟨(k2, w2), hm2, rfl⟩

theorem nodup_vpIter : (xs : List NwbValue) → (i : Nat) → (p : List Seg) →
    wfvList xs = true → (vpIterLoop xs i p).Nodup
  | [], i, p => by
      intro _
      rw [vpIterLoop]
      exact List.nodup_nil
  | x :: rest, i, p => by
      intro h
      rw [wfvList, Bool.and_eq_true] at h
      obtain ⟨hx, hr⟩ := h
      rw [vpIterLoop]
      split
      · exact List.nodup_nil
      · rw [List.nodup_append]
        refine ⟨nodup_visitPaths x _ hx, nodup_vpIter rest (i + 1) p hr, ?_⟩
        intro q hq1 hq2
        rcases extend_shape (mem_visitPaths x (p ++ [Seg.iseg i]) q hq1) with ⟨t, hqe1⟩
        rcases mem_vpIter rest (i + 1) p q hq2 with ⟨j, t2, hqe2, hij⟩
        have hseg := path_seg_eq (hqe1.symm.trans hqe2)
        have hn : i = j := by injection hseg
        omega

end

/-- Claim C1 as amended: `process_nwb_container` has no visited-set.  On finite
tree-structured entity data — including data in which two distinct access paths
reach equal nested containers — the traversal is total and visits each structural
access path at most once: the paths at which container summary lines are emitted
are duplicate-free.  (On a graph with a genuine back-reference the recursion never
terminates: see the counterexample on `cyclicStore`.) -/
theorem claim_C1_amended (v : NwbValue) (p : List Seg) (h : wfv v = true) :
    (visitPaths v p).Nodup :=
  nodup_visitPaths v p h

/-- Witness for claim C1 on a container in which the paths `.b` and `.c` reach the
same nested container. -/
theorem claim_C1_witness :
    wfv sharedSubcontainerEx = true ∧ (visitPaths sharedSubcontainerEx []).Nodup :=
  ⟨by decide, claim_C1_amended sharedSubcontainerEx [] (by decide)⟩
